import Mathlib

/-!
Verification of `sort_quizzes.py`, a batch utility that scans semester
folders, locates the three PDF parts of each quiz, and merges them into a
normalized output directory.  The Python source is shallowly embedded:

* strings are Lean `String`s (the dataset is ASCII, so Python's Unicode
  `str.lower`, `\w` and `\d` are modelled by their ASCII restrictions);
* the filesystem is a finite tree of named entries (`Node`), with directory
  iteration order given by the entry list order;
* the two `re.match` patterns of `SEMESTER_PATTERNS` and the quiz-folder /
  quiz-part patterns are embedded directly, including the greedy
  backtracking of `\w+`;
* PDF files are their page lists; a file that `PyPDF2` fails to read is
  modelled as `FileData.bad msg`, and the exception text is the message;
* every fallible filesystem operation returns an explicit success flag
  (the Python code catches every exception inside `merge_pdfs`).
-/

namespace SortQuizzes

/-! ## ASCII character helpers (models of Python `str.lower`, `str.capitalize`,
`\w` and `\d` restricted to ASCII) -/

/-- ASCII lower-casing of one character, as Python `str.lower` acts on ASCII. -/
def lowChar (c : Char) : Char :=
  if 65 ≤ c.toNat ∧ c.toNat ≤ 90 then Char.ofNat (c.toNat + 32) else c

/-- ASCII upper-casing of one character, used by `str.capitalize`. -/
def upChar (c : Char) : Char :=
  if 97 ≤ c.toNat ∧ c.toNat ≤ 122 then Char.ofNat (c.toNat - 32) else c

/-- ASCII lower-casing of a string. -/
def lowStr (s : String) : String := String.mk (s.toList.map lowChar)

/-- Python `str.capitalize`: first character upper-cased, the rest lower-cased. -/
def capitalize (s : String) : String :=
  match s.toList with
  | [] => ""
  | c :: rest => String.mk (upChar c :: rest.map lowChar)

/-- Model of the regex class `\w` (ASCII): letters, digits and underscore. -/
def isWordChar (c : Char) : Bool := c.isAlphanum || c == '_'

/-- `s` contains no ASCII upper-case letter. -/
def noUpper (s : String) : Bool :=
  s.toList.all fun c => !(decide (65 ≤ c.toNat ∧ c.toNat ≤ 90))

/-! ## Semester folder parsing

`SEMESTER_PATTERNS = [r"Quizzes-(\w+)-(\d{4})", r"Quizzes-(\w+)(\d{4})"]`,
matched with `re.match` (anchored at the start only).  The `\w+` group is
greedy with backtracking: the engine tries the longest word-character run
first and shortens it until the rest of the pattern matches. -/

/-- Four regex `\d` digits at the head of `cs` (the pattern is not anchored at
the end, so trailing characters are ignored). -/
def fourDigitsAt (cs : List Char) : Option String :=
  match cs with
  | a :: b :: c :: d :: _ =>
    if a.isDigit && b.isDigit && c.isDigit && d.isDigit then
      some (String.mk [a, b, c, d])
    else none
  | _ => none

/-- Try `(\w+)-(\d{4})` with the group of length exactly `k`:
the tail after the group must be a hyphen followed by four digits. -/
def sem1At (cs : List Char) (k : Nat) : Option (String × String) :=
  match cs.drop k with
  | '-' :: rest => (fourDigitsAt rest).map (fun y => (String.mk (cs.take k), y))
  | _ => none

/-- Try `(\w+)(\d{4})` with the group of length exactly `k`. -/
def sem2At (cs : List Char) (k : Nat) : Option (String × String) :=
  (fourDigitsAt (cs.drop k)).map (fun y => (String.mk (cs.take k), y))

/-- Greedy backtracking driver: try group lengths `k, k-1, ..., 1` and return
the first success, exactly as the regex engine shortens a greedy `\w+`. -/
def greedyFrom (f : Nat → Option (String × String)) : Nat → Option (String × String)
  | 0 => none
  | k + 1 =>
    match f (k + 1) with
    | some r => some r
    | none => greedyFrom f k

/-- The literal prefix `Quizzes-` shared by both semester patterns. -/
def QUIZZES_DASH : List Char := "Quizzes-".toList

/-- Embedding of `re.match(r"Quizzes-(\w+)-(\d{4})", name)`. -/
def matchSemester1 (name : String) : Option (String × String) :=
  let cs := name.toList
  if cs.take 8 = QUIZZES_DASH then
    let rest := cs.drop 8
    greedyFrom (sem1At rest) (rest.takeWhile isWordChar).length
  else none

/-- Embedding of `re.match(r"Quizzes-(\w+)(\d{4})", name)`. -/
def matchSemester2 (name : String) : Option (String × String) :=
  let cs := name.toList
  if cs.take 8 = QUIZZES_DASH then
    let rest := cs.drop 8
    greedyFrom (sem2At rest) (rest.takeWhile isWordChar).length
  else none

/-- `parse_semester_folder`: first matching pattern wins, the season group is
lower-cased, the year group is returned as matched. -/
def parse_semester_folder (name : String) : Option (String × String) :=
  match matchSemester1 name with
  | some (season, year) => some (lowStr season, year)
  | none =>
    match matchSemester2 name with
    | some (season, year) => some (lowStr season, year)
    | none => none

/-! ## Filesystem model

A `Node` is a directory (finite list of named entries, in `iterdir` order) or
a file.  A PDF file is its list of pages (`FileData.pdf`); a file `PyPDF2`
cannot read is `FileData.bad msg` and appending it raises an exception whose
text is `msg`.  Paths are lists of name components relative to the workspace
root. -/

/-- Content of a file: a readable PDF (its pages) or an unreadable file. -/
inductive FileData where
  | pdf (pages : List Nat)
  | bad (msg : String)

/-- A filesystem tree. -/
inductive Node where
  | dir (entries : List (String × Node))
  | file (data : FileData)

/-- Directory listing of a node (`iterdir` order); empty for a file. -/
def Node.entriesOf : Node → List (String × Node)
  | Node.dir es => es
  | Node.file _ => []

/-- Whether a node is a directory (`Path.is_dir`). -/
def Node.isDir : Node → Bool
  | Node.dir _ => true
  | Node.file _ => false

/-- First entry with the given name (real directories have unique names;
lookup of the first occurrence matches any such tree). -/
def lookupEnt : List (String × Node) → String → Option Node
  | [], _ => none
  | e :: rest, name => if e.1 = name then some e.2 else lookupEnt rest name

/-- Replace the first entry with the given name, or append a new one. -/
def setEnt : List (String × Node) → String → Node → List (String × Node)
  | [], name, nd => [(name, nd)]
  | e :: rest, name, nd =>
    if e.1 = name then (e.1, nd) :: rest else e :: setEnt rest name nd

/-- Resolve a path from a node. -/
def resolve (t : Node) : List String → Option Node
  | [] => some t
  | name :: rest =>
    match t with
    | Node.file _ => none
    | Node.dir es =>
      match lookupEnt es name with
      | none => none
      | some child => resolve child rest

/-- Directory listing at a path; empty if the path is missing or a file. -/
def entriesAt (t : Node) (p : List String) : List (String × Node) :=
  match resolve t p with
  | some (Node.dir es) => es
  | _ => []

/-- `Path.mkdir(parents=True, exist_ok=True)`: create the directories along
the path, keeping whatever was created before hitting a blocking file
(Python creates missing ancestors top-down and raises at the first file in
the way; `exist_ok` tolerates existing directories only).  Returns the new
tree and whether the call succeeded. -/
def mkdirp : Node → List String → Node × Bool
  | t, [] => (t, t.isDir)
  | Node.file d, _ :: _ => (Node.file d, false)
  | Node.dir es, name :: rest =>
    match lookupEnt es name with
    | some child =>
      let r := mkdirp child rest
      (Node.dir (setEnt es name r.1), r.2)
    | none =>
      let r := mkdirp (Node.dir []) rest
      (Node.dir (es ++ [(name, r.1)]), r.2)

/-- `open(path, "wb")` + write of the merged pages: overwrites an existing
file, creates a missing entry, fails if the target is a directory or a
parent is missing or a file.  On failure the tree is unchanged. -/
def writeF : Node → List String → List Nat → Node × Bool
  | t, [], _ => (t, false)
  | Node.file d, _ :: _, _ => (Node.file d, false)
  | Node.dir es, [name], pages =>
    match lookupEnt es name with
    | some (Node.dir _) => (Node.dir es, false)
    | some (Node.file _) => (Node.dir (setEnt es name (Node.file (FileData.pdf pages))), true)
    | none => (Node.dir (es ++ [(name, Node.file (FileData.pdf pages))]), true)
  | Node.dir es, name :: rest₁ :: rest₂, pages =>
    match lookupEnt es name with
    | some child =>
      let r := writeF child (rest₁ :: rest₂) pages
      (Node.dir (setEnt es name r.1), r.2)
    | none => (Node.dir es, false)

/-- `PdfMerger.append(str(path))`: read and parse one input PDF. -/
def readPdf (t : Node) (p : List String) : Except String (List Nat) :=
  match resolve t p with
  | none => Except.error "No such file or directory"
  | some (Node.dir _) => Except.error "Is a directory"
  | some (Node.file (FileData.bad m)) => Except.error m
  | some (Node.file (FileData.pdf pages)) => Except.ok pages

/-- The append loop of `merge_pdfs`: pages of all inputs concatenated in list
order, or the first exception raised. -/
def readAll (t : Node) : List (List String) → Except String (List Nat)
  | [] => Except.ok []
  | p :: ps =>
    match readPdf t p with
    | Except.error e => Except.error e
    | Except.ok pages =>
      match readAll t ps with
      | Except.error e => Except.error e
      | Except.ok rest => Except.ok (pages ++ rest)

/-! ## Quiz folder discovery (`find_quiz_folders`) -/

/-- Numeric value of a digit run, as Python `int`. -/
def digitsVal (ds : List Char) : Nat := ds.foldl (fun a c => a * 10 + (c.toNat - 48)) 0

/-- Embedding of `re.match(r"Quiz(\d+)", name, re.IGNORECASE)`: the name
starts (case-insensitively) with `Quiz` followed by at least one digit; the
group is the maximal digit run and trailing characters are ignored. -/
def quizFolderNum1 (name : String) : Option Nat :=
  let cs := name.toList.map lowChar
  if cs.take 4 = "quiz".toList then
    let ds := (cs.drop 4).takeWhile Char.isDigit
    if ds.isEmpty then none else some (digitsVal ds)
  else none

/-- Embedding of `re.match(r"Q(\d+)$", name, re.IGNORECASE)`: `Q` followed by
digits up to the end of the name. -/
def quizFolderNum2 (name : String) : Option Nat :=
  match name.toList.map lowChar with
  | 'q' :: rest =>
    if !rest.isEmpty && rest.all Char.isDigit then some (digitsVal rest) else none
  | _ => none

/-- Quiz number of a subdirectory name: first convention, then the second. -/
def quizFolderNum (name : String) : Option Nat :=
  match quizFolderNum1 name with
  | some n => some n
  | none => quizFolderNum2 name

/-- Stable insertion: `x` goes before the first element `y` with `le x y`,
hence after all elements it ties with. -/
def ordIns (le : α → α → Bool) (x : α) : List α → List α
  | [] => [x]
  | y :: ys => if le x y then x :: y :: ys else y :: ordIns le x ys

/-- Stable insertion sort; with a `≤`-style comparison this computes the same
list as Python's stable `sorted`. -/
def insSort (le : α → α → Bool) : List α → List α
  | [] => []
  | x :: xs => ordIns le x (insSort le xs)

/-- Key comparison of `sorted(quiz_folders, key=lambda x: x[0])`. -/
def quizNumLe (a b : Nat × String) : Bool := Nat.ble a.1 b.1

/-- `find_quiz_folders`: subdirectories matching either quiz convention,
paired with their number and sorted by it (stably, as Python `sorted`). -/
def find_quiz_folders (entries : List (String × Node)) : List (Nat × String) :=
  insSort quizNumLe (entries.filterMap fun e =>
    if e.2.isDir then (quizFolderNum e.1).map fun n => (n, e.1) else none)

/-! ## Quiz part location (`find_quiz_parts`) -/

/-- Exact dot-separated part name `Quiz<n>.<p>.pdf`. -/
def dotName (n p : Nat) : String :=
  "Quiz" ++ toString n ++ "." ++ toString p ++ ".pdf"

/-- Exact comma-separated part name `Quiz<n>,<p>.pdf`. -/
def commaName (n p : Nat) : String :=
  "Quiz" ++ toString n ++ "," ++ toString p ++ ".pdf"

/-- `pat` is an initial segment of `s`. -/
def leadsWith : List Char → List Char → Bool
  | [], _ => true
  | p :: ps, s =>
    match s with
    | [] => false
    | c :: cs => p == c && leadsWith ps cs

/-- Embedding of `re.match(rf"Quiz{n}[.,]{p}\.pdf", name, re.IGNORECASE)`:
the lowered name starts with the lowered dot or comma part name. -/
def looseOk (n p : Nat) (name : String) : Bool :=
  let l := name.toList.map lowChar
  leadsWith ((dotName n p).toList.map lowChar) l ||
    leadsWith ((commaName n p).toList.map lowChar) l

/-- Index of the last `.` in the name, if any (Python `str.rfind`). -/
def lastDotIdx (cs : List Char) : Option Nat :=
  (List.range cs.length).foldl
    (fun acc i => if cs.get? i == some '.' then some i else acc) none

/-- `pathlib.PurePath.suffix`: the final extension, empty when the only dot
leads the name or ends it. -/
def pathSuffix (name : String) : String :=
  let cs := name.toList
  match lastDotIdx cs with
  | some i => if 0 < i ∧ i + 1 < cs.length then String.mk (cs.drop i) else ""
  | none => ""

/-- The `file.suffix.lower() == ".pdf"` check of the fallback scan. -/
def isPdfName (name : String) : Bool := lowStr (pathSuffix name) == ".pdf"

/-- Fallback scan: first entry, in directory order, whose suffix lowers to
`.pdf` and whose name loosely matches the part pattern (the Python loop does
not test `is_file`, so a directory with a matching name is also taken). -/
def findPartLoose (entries : List (String × Node)) (n p : Nat) : Option String :=
  (entries.find? fun e => isPdfName e.1 && looseOk n p e.1).map fun e => e.1

/-- One position of the part search: exact dot name if such an entry exists
(`Path.exists` is true for directories too), else exact comma name, else the
loose case-insensitive scan. -/
def findPart (entries : List (String × Node)) (n p : Nat) : Option String :=
  if (lookupEnt entries (dotName n p)).isSome then some (dotName n p)
  else if (lookupEnt entries (commaName n p)).isSome then some (commaName n p)
  else findPartLoose entries n p

/-- The warning printed for a missing part.  `folderStr` stands for the
`{quiz_folder}` path display (absolute on a real run; modelled relative). -/
def warnMsg (folderStr : String) (p : Nat) : String :=
  "  Warning: Could not find part " ++ toString p ++ " in " ++ folderStr

/-- `find_quiz_parts`: for positions 1, 2, 3 in order collect the located
file names; a missing position adds a warning and is omitted.  Returns
(found names in order, warnings in order); the function is total — no
exception escapes. -/
def find_quiz_parts (folderStr : String) (entries : List (String × Node)) (n : Nat) :
    List String × List String :=
  [1, 2, 3].foldl
    (fun acc p =>
      match findPart entries n p with
      | some f => (acc.1 ++ [f], acc.2)
      | none => (acc.1, acc.2 ++ [warnMsg folderStr p]))
    ([], [])

/-! ## Merger (`merge_pdfs`)

The whole body after the empty-list check runs inside one `try`; any
exception from an append, the `mkdir` or the write is caught, its message
printed, and `False` returned.  `merger.close()` is the last statement of
the `try` block, so it runs only when everything before it succeeded. -/

/-- Result of one `merge_pdfs` call: return value, filesystem afterwards,
lines printed, whether `merger.close()` was executed, and the pages written
on success. -/
structure MergeOut where
  ok : Bool
  fs : Node
  prints : List String
  closed : Bool
  wrote : Option (List Nat)

/-- The `print(f"  Error merging PDFs: {e}")` line. -/
def errLine (e : String) : String := "  Error merging PDFs: " ++ e

/-- Model message for an exception raised by `Path.mkdir`. -/
def mkdirErrMsg : String := "mkdir failed"

/-- Model message for an exception raised by `merger.write`. -/
def writeErrMsg : String := "write failed"

/-- `merge_pdfs(pdf_paths, output_path)`. -/
def merge_pdfs (t : Node) (paths : List (List String)) (out : List String) : MergeOut :=
  if paths.isEmpty then ⟨false, t, [], false, none⟩
  else
    match readAll t paths with
    | Except.error e => ⟨false, t, [errLine e], false, none⟩
    | Except.ok pages =>
      let md := mkdirp t out.dropLast
      if md.2 then
        let wr := writeF md.1 out pages
        if wr.2 then ⟨true, wr.1, [], true, some pages⟩
        else ⟨false, wr.1, [errLine writeErrMsg], false, none⟩
      else ⟨false, md.1, [errLine mkdirErrMsg], false, none⟩

/-! ## Orchestrator (`main`) -/

/-- `OUTPUT_DIR = WORKSPACE_DIR / "Quizzes"`, as a name relative to the
workspace root. -/
def OUTPUT_DIR : String := "Quizzes"

/-- The per-quiz output folder name `Quiz <n>`. -/
def output_folder (qn : Nat) : String := "Quiz " ++ toString qn

/-- The output file name `quiz_<n>_<year>_<season>.pdf`. -/
def output_filename (qn : Nat) (year season : String) : String :=
  "quiz_" ++ toString qn ++ "_" ++ year ++ "_" ++ season ++ ".pdf"

/-- The full output path of one merged quiz. -/
def output_path (qn : Nat) (year season : String) : List String :=
  [OUTPUT_DIR, output_folder qn, output_filename qn year season]

/-- State of a run: filesystem, the two counters, lines printed so far, and
three model-level traces — quizzes visited, `merge_pdfs` invocations
(quiz number, season, year, part paths, output path), and successful writes
(output path, pages written). -/
structure RunState where
  fs : Node
  merged : Nat
  errors : Nat
  prints : List String
  visits : List (String × String × Nat × String)
  calls : List (Nat × String × String × List (List String) × List String)
  writes : List (List String × List Nat)

/-- The body of the inner quiz loop (lines 170-190 of the source): locate the
parts, skip with an error when fewer than 3 were found, otherwise merge. -/
def processQuiz (st : RunState) (season year semName : String) (qn : Nat) (qname : String) :
    RunState :=
  let folderStr := semName ++ "/" ++ qname
  let fq := find_quiz_parts folderStr (entriesAt st.fs [semName, qname]) qn
  let st1 := { st with prints := st.prints ++ fq.2,
                       visits := st.visits ++ [(season, year, qn, qname)] }
  if fq.1.length ≠ 3 then
    { st1 with
      prints := st1.prints ++
        ["  Quiz " ++ toString qn ++ ": Found " ++ toString fq.1.length ++ "/3 parts - skipping"],
      errors := st1.errors + 1 }
  else
    let parts := fq.1.map fun f => [semName, qname, f]
    let out := output_path qn year season
    let m := merge_pdfs st1.fs parts out
    let st2 := { st1 with fs := m.fs, prints := st1.prints ++ m.prints,
                          calls := st1.calls ++ [(qn, season, year, parts, out)] }
    if m.ok then
      { st2 with
        prints := st2.prints ++
          ["  Quiz " ++ toString qn ++ ": Merged -> " ++ output_filename qn year season],
        merged := st2.merged + 1,
        writes := st2.writes ++ [(out, m.wrote.getD [])] }
    else
      { st2 with
        prints := st2.prints ++ ["  Quiz " ++ toString qn ++ ": Failed to merge"],
        errors := st2.errors + 1 }

/-- The inner loop over the quiz folders of one semester. -/
def processQuizzes (st : RunState) (season year semName : String) :
    List (Nat × String) → RunState
  | [] => st
  | q :: qs => processQuizzes (processQuiz st season year semName q.1 q.2) season year semName qs

/-- One semester (lines 165-190): print the progress line, discover the quiz
folders from the current filesystem, process them in sorted order. -/
def processSemester (st : RunState) (sem : String × String × String) : RunState :=
  let st0 := { st with prints := st.prints ++ ["\nProcessing " ++ sem.2.2 ++ "..."] }
  processQuizzes st0 sem.1 sem.2.1 sem.2.2 (find_quiz_folders (entriesAt st0.fs [sem.2.2]))

/-- The outer loop over the sorted semester folders. -/
def processAll (st : RunState) : List (String × String × String) → RunState
  | [] => st
  | s :: ss => processAll (processSemester st s) ss

/-- The top-level scan (lines 140-146): every immediate subdirectory whose
name parses as a semester, in `iterdir` order, as (season, year, name). -/
def scanSemesters (w : List (String × Node)) : List (String × String × String) :=
  w.filterMap fun e =>
    if e.2.isDir then (parse_semester_folder e.1).map fun sy => (sy.1, sy.2, e.1) else none

/-- `season_order = {"winter": 0, "spring": 1, "fall": 2}` with default 3. -/
def seasonOrder : String → Nat
  | "winter" => 0
  | "spring" => 1
  | "fall" => 2
  | _ => 3

/-- Strict lexicographic comparison of character lists by code point, the
order Python uses on `str`. -/
def clLt : List Char → List Char → Bool
  | [], [] => false
  | [], _ :: _ => true
  | _ :: _, [] => false
  | a :: as, b :: bs =>
    if a.toNat < b.toNat then true
    else if b.toNat < a.toNat then false
    else clLt as bs

/-- The sort key comparison of line 154: by year string, then by season
priority. -/
def semLe (a b : String × String × String) : Bool :=
  clLt a.2.1.toList b.2.1.toList ||
    (a.2.1 == b.2.1 && Nat.ble (seasonOrder a.1) (seasonOrder b.1))

/-- The semester list exactly as the orchestrator iterates it. -/
def sortedSemesters (w : List (String × Node)) : List (String × String × String) :=
  insSort semLe (scanSemesters w)

/-- `name.endswith(".pdf")`, the case-sensitive `glob("*.pdf")` test. -/
def endsWithPdf (name : String) : Bool :=
  leadsWith ".pdf".toList.reverse name.toList.reverse

/-- `len(list(folder.glob("*.pdf")))` of the summary listing. -/
def countPdfs (t : Node) : Nat :=
  t.entriesOf.countP fun e => endsWithPdf e.1

/-- `a ≤ b` on entry names, for `sorted(OUTPUT_DIR.iterdir())`. -/
def nameLe (a b : String × Node) : Bool := !clLt b.1.toList a.1.toList

/-- The per-folder file count listing of the summary (lines 201-205). -/
def listingPrints (fs : Node) : List String :=
  "\nCreated folders:" ::
    ((insSort nameLe (entriesAt fs [OUTPUT_DIR])).filterMap fun e =>
      if e.2.isDir then
        some ("  " ++ e.1 ++ ": " ++ toString (countPdfs e.2) ++ " files")
      else none)

/-- The separator `"=" * 60` used by the banner and the summary. -/
def sepLine : String := String.mk (List.replicate 60 '=')

/-- The banner and configuration lines (132-137); the absolute workspace
path display is environment-specific and modelled as `.`. -/
def headerPrints : List String :=
  [sepLine,
   "ECE109 Quiz Sorter and Merger",
   sepLine,
   "\nWorkspace: .",
   "Output directory: ./Quizzes",
   ""]

/-- The semester inventory lines (156-159). -/
def semListPrints (sems : List (String × String × String)) : List String :=
  (("Found " ++ toString sems.length ++ " semester folders:") ::
    sems.map fun s => "  - " ++ s.2.2 ++ " (" ++ capitalize s.1 ++ " " ++ s.2.1 ++ ")") ++ [""]

/-- The summary block (lines 193-205). -/
def summaryPrints (st : RunState) : List String :=
  ["\n" ++ sepLine,
   "Summary",
   sepLine,
   "Successfully merged: " ++ toString st.merged ++ " quizzes",
   "Errors: " ++ toString st.errors,
   "\nOutput location: ./Quizzes"] ++
  (if st.merged > 0 then listingPrints st.fs else [])

/-- `main()` on a workspace whose top-level listing is `w`.  The scan happens
before any write; with no recognized semester the function reports and
returns without the summary, otherwise every semester and quiz is processed
and the summary appended. -/
def main (w : List (String × Node)) : RunState :=
  let sems := sortedSemesters w
  let base : RunState := ⟨Node.dir w, 0, 0, headerPrints, [], [], []⟩
  if sems.isEmpty then
    { base with prints := base.prints ++ ["No semester folders found!"] }
  else
    let st0 := { base with prints := base.prints ++ semListPrints sems }
    let st1 := processAll st0 sems
    { st1 with prints := st1.prints ++ summaryPrints st1 }

/-! ## Observations of the output subtree

A run reads only outside `OUTPUT_DIR` and writes only inside it, and the
success of a merge depends on the `Quizzes` subtree only through "blocking"
entries: a file where a directory must be created, a directory where the
output file must be written.  These observations are invariant under every
write a run performs, which is what makes a second run behave identically. -/

/-- The entry named `a` exists and is a file. -/
def entKindFile (es : List (String × Node)) (a : String) : Bool :=
  match lookupEnt es a with
  | some (Node.file _) => true
  | _ => false

/-- The entry `a/d` exists and is a file. -/
def entKindFile2 (es : List (String × Node)) (a d : String) : Bool :=
  match lookupEnt es a with
  | some (Node.dir es2) => entKindFile es2 d
  | _ => false

/-- The entry `d/f` exists under `es` and is a directory. -/
def entKindDir2 (es : List (String × Node)) (d f : String) : Bool :=
  match lookupEnt es d with
  | some (Node.dir es3) =>
    match lookupEnt es3 f with
    | some (Node.dir _) => true
    | _ => false
  | _ => false

/-- The entry `a/d/f` exists and is a directory. -/
def entKindDir3 (es : List (String × Node)) (a d f : String) : Bool :=
  match lookupEnt es a with
  | some (Node.dir es2) => entKindDir2 es2 d f
  | _ => false

/-- The top-level entries other than the output directory. -/
def nonQ (es : List (String × Node)) : List (String × Node) :=
  es.filter fun e => !(e.1 == OUTPUT_DIR)

/-- Two filesystem states that a run cannot tell apart: identical outside
`OUTPUT_DIR` and with the same blocking entries inside it. -/
def obsEq (s t : Node) : Prop :=
  nonQ s.entriesOf = nonQ t.entriesOf ∧
  entKindFile s.entriesOf OUTPUT_DIR = entKindFile t.entriesOf OUTPUT_DIR ∧
  (∀ d, entKindFile2 s.entriesOf OUTPUT_DIR d = entKindFile2 t.entriesOf OUTPUT_DIR d) ∧
  (∀ d f, entKindDir3 s.entriesOf OUTPUT_DIR d f = entKindDir3 t.entriesOf OUTPUT_DIR d f)

/-- What one step of the orchestrator adds to the run state besides the new
filesystem: counter increments and trace suffixes. -/
structure Delta where
  dm : Nat
  de : Nat
  dp : List String
  dv : List (String × String × Nat × String)
  dc : List (Nat × String × String × List (List String) × List String)
  dw : List (List String × List Nat)

/-- Apply a delta on top of a state, with the new filesystem given. -/
def applyDelta (st : RunState) (fs : Node) (d : Delta) : RunState :=
  ⟨fs, st.merged + d.dm, st.errors + d.de, st.prints ++ d.dp, st.visits ++ d.dv,
   st.calls ++ d.dc, st.writes ++ d.dw⟩

/-- Sequential composition of two deltas. -/
def Delta.comb (d1 d2 : Delta) : Delta :=
  ⟨d1.dm + d2.dm, d1.de + d2.de, d1.dp ++ d2.dp, d1.dv ++ d2.dv,
   d1.dc ++ d2.dc, d1.dw ++ d2.dw⟩

/-! ## General lemmas -/

theorem toNat_ofNat_valid (n : Nat) (h : n < 55296) : (Char.ofNat n).toNat = n := by
  rw [Char.ofNat, dif_pos (Or.inl h : Nat.isValidChar n)]
  rfl

theorem lowChar_notUpper (c : Char) : ¬(65 ≤ (lowChar c).toNat ∧ (lowChar c).toNat ≤ 90) := by
  unfold lowChar
  by_cases h : 65 ≤ c.toNat ∧ c.toNat ≤ 90
  · rw [if_pos h]
    rw [toNat_ofNat_valid (c.toNat + 32) (by omega)]
    omega
  · rw [if_neg h]
    exact h

theorem noUpper_lowStr (s : String) : noUpper (lowStr s) = true := by
  unfold noUpper lowStr
  rw [List.all_eq_true]
  intro c hc
  simp only [String.toList] at hc
  rcases List.mem_map.mp hc with ⟨c0, _, rfl⟩
  simp [lowChar_notUpper c0]

/-! ## C2: semester folder parsing -/

/-- C2: `parse_semester_folder` sends `Quizzes-Fall-2021` to `(fall, 2021)`,
`Quizzes-Fall2024` to `(fall, 2024)`, `Quizzes-Spring-2021` to
`(spring, 2021)`, and a name matching neither pattern (such as `Notes`) to
`none`; when the first pattern of `SEMESTER_PATTERNS` matches it wins, and
every returned season is lower-cased. -/
theorem parse_semester_spec :
    parse_semester_folder "Quizzes-Fall-2021" = some ("fall", "2021") ∧
    parse_semester_folder "Quizzes-Fall2024" = some ("fall", "2024") ∧
    parse_semester_folder "Quizzes-Spring-2021" = some ("spring", "2021") ∧
    parse_semester_folder "Notes" = none ∧
    (∀ name s y, matchSemester1 name = some (s, y) →
      parse_semester_folder name = some (lowStr s, y)) ∧
    (∀ name, matchSemester1 name = none → matchSemester2 name = none →
      parse_semester_folder name = none) ∧
    (∀ name s y, parse_semester_folder name = some (s, y) → noUpper s = true) := by
  refine ⟨by decide, by decide, by decide, by decide, ?_, ?_, ?_⟩
  · intro name s y h
    unfold parse_semester_folder
    rw [h]
  · intro name h1 h2
    unfold parse_semester_folder
    rw [h1, h2]
  · intro name s y h
    unfold parse_semester_folder at h
    cases h1 : matchSemester1 name with
    | some r =>
      rw [h1] at h
      cases h
      exact noUpper_lowStr r.1
    | none =>
      rw [h1] at h
      cases h2 : matchSemester2 name with
      | some r =>
        rw [h2] at h
        cases h
        exact noUpper_lowStr r.1
      | none =>
        rw [h2] at h
        cases h

/-- C2 witness: the theorem applied at `Quizzes-Winter-2022`. -/
theorem parse_semester_spec_witness :
    parse_semester_folder "Quizzes-Winter-2022" = some (lowStr "Winter", "2022") ∧
    noUpper "winter" = true :=
  ⟨parse_semester_spec.2.2.2.2.1 "Quizzes-Winter-2022" "Winter" "2022" rfl,
   parse_semester_spec.2.2.2.2.2.2 "Quizzes-Winter-2022" "winter" "2022" rfl⟩

/-! ## Insertion sort lemmas -/

theorem mem_ordIns (le : α → α → Bool) (x : α) (l : List α) (z : α) :
    z ∈ ordIns le x l ↔ z = x ∨ z ∈ l := by
  induction l with
  | nil => simp [ordIns]
  | cons y ys ih =>
    unfold ordIns
    by_cases h : le x y = true
    · simp [h]
    · rw [if_neg h]
      simp only [List.mem_cons, ih]
      tauto

theorem perm_ordIns (le : α → α → Bool) (x : α) (l : List α) :
    (ordIns le x l).Perm (x :: l) := by
  induction l with
  | nil => simp [ordIns]
  | cons y ys ih =>
    unfold ordIns
    by_cases h : le x y = true
    · simp [h]
    · rw [if_neg h]
      exact (ih.cons y).trans (List.Perm.swap x y ys)

theorem perm_insSort (le : α → α → Bool) (l : List α) : (insSort le l).Perm l := by
  induction l with
  | nil => simp [insSort]
  | cons x xs ih =>
    exact (perm_ordIns le x (insSort le xs)).trans (ih.cons x)

theorem pairwise_ordIns (le : α → α → Bool)
    (htot : ∀ a b, le a b || le b a)
    (htrans : ∀ a b c, le a b = true → le b c = true → le a c = true)
    (x : α) (l : List α) (h : l.Pairwise fun a b => le a b = true) :
    (ordIns le x l).Pairwise fun a b => le a b = true := by
  induction l with
  | nil => simp [ordIns]
  | cons y ys ih =>
    rcases List.pairwise_cons.mp h with ⟨hy, hys⟩
    unfold ordIns
    by_cases hxy : le x y = true
    · rw [if_pos hxy]
      refine List.pairwise_cons.mpr ⟨?_, h⟩
      intro z hz
      rcases List.mem_cons.mp hz with rfl | hz
      · exact hxy
      · exact htrans x y z hxy (hy z hz)
    · rw [if_neg hxy]
      refine List.pairwise_cons.mpr ⟨?_, ih hys⟩
      intro z hz
      rcases (mem_ordIns le x ys z).mp hz with h' | hz
      · have h2 := htot x y
        rw [Bool.eq_false_iff.mpr hxy] at h2
        rw [h']
        simpa using h2
      · exact hy z hz

theorem pairwise_insSort (le : α → α → Bool)
    (htot : ∀ a b, le a b || le b a)
    (htrans : ∀ a b c, le a b = true → le b c = true → le a c = true)
    (l : List α) : (insSort le l).Pairwise fun a b => le a b = true := by
  induction l with
  | nil => simp [insSort]
  | cons x xs ih => exact pairwise_ordIns le htot htrans x (insSort le xs) ih

/-! ## C3: quiz part location -/

/-- C3: for each position 1, 2, 3 in order, `find_quiz_parts` selects the
first existing entry among the exact dot name, the exact comma name, and the
first `.pdf` entry of the folder loosely matching the pattern
case-insensitively; a missing position contributes a warning instead and is
omitted, and the function totally returns the found subset — positions found
plus warnings always number three. -/
theorem find_quiz_parts_spec :
    (∀ e n p, findPart e n p =
      if (lookupEnt e (dotName n p)).isSome then some (dotName n p)
      else if (lookupEnt e (commaName n p)).isSome then some (commaName n p)
      else (e.find? fun f => isPdfName f.1 && looseOk n p f.1).map fun f => f.1) ∧
    (∀ fs e n, (find_quiz_parts fs e n).1 = [1, 2, 3].filterMap (findPart e n)) ∧
    (∀ fs e n, (find_quiz_parts fs e n).2 =
      ([1, 2, 3].filter fun p => (findPart e n p).isNone).map (warnMsg fs)) ∧
    (∀ fs e n,
      (find_quiz_parts fs e n).1.length + (find_quiz_parts fs e n).2.length = 3) ∧
    find_quiz_parts "Quizzes-Fall-2021/Quiz6"
      [("Quiz6,1.pdf", Node.file (FileData.pdf [1])),
       ("Quiz6,2.pdf", Node.file (FileData.pdf [2])),
       ("Quiz6,3.pdf", Node.file (FileData.pdf [3]))] 6
      = (["Quiz6,1.pdf", "Quiz6,2.pdf", "Quiz6,3.pdf"], []) := by
  refine ⟨?_, ?_, ?_, ?_, by decide⟩
  · intro e n p
    rfl
  · intro fs e n
    unfold find_quiz_parts
    cases h1 : findPart e n 1 <;> cases h2 : findPart e n 2 <;> cases h3 : findPart e n 3 <;>
      simp [List.foldl, List.filterMap, h1, h2, h3]
  · intro fs e n
    unfold find_quiz_parts
    cases h1 : findPart e n 1 <;> cases h2 : findPart e n 2 <;> cases h3 : findPart e n 3 <;>
      simp [List.foldl, List.filter, h1, h2, h3]
  · intro fs e n
    unfold find_quiz_parts
    cases h1 : findPart e n 1 <;> cases h2 : findPart e n 2 <;> cases h3 : findPart e n 3 <;>
      simp [List.foldl, h1, h2, h3]

/-! ## C4: quiz folder discovery -/

/-- C4: `find_quiz_folders` keeps exactly the subdirectories matching either
naming convention, sorted in ascending numeric order — a directory holding
`Quiz1`, `Quiz10`, `Q2` yields numbers [1, 2, 10], not lexical order — and
directories matching neither convention are omitted. -/
theorem find_quiz_folders_spec :
    (find_quiz_folders
      [("Quiz1", Node.dir []), ("Quiz10", Node.dir []), ("Q2", Node.dir [])]).map Prod.fst
      = [1, 2, 10] ∧
    (∀ entries, (find_quiz_folders entries).Pairwise fun a b => a.1 ≤ b.1) ∧
    (∀ entries, (find_quiz_folders entries).Perm
      (entries.filterMap fun e =>
        if e.2.isDir then (quizFolderNum e.1).map fun n => (n, e.1) else none)) ∧
    (∀ entries e, e ∈ entries → quizFolderNum e.1 = none →
      ∀ k, (k, e.1) ∉ find_quiz_folders entries) := by
  have hperm : ∀ entries : List (String × Node), (find_quiz_folders entries).Perm
      (entries.filterMap fun e =>
        if e.2.isDir then (quizFolderNum e.1).map fun n => (n, e.1) else none) :=
    fun entries => perm_insSort _ _
  refine ⟨by decide, ?_, hperm, ?_⟩
  · intro entries
    have h := pairwise_insSort quizNumLe
      (fun a b => by
        unfold quizNumLe
        rcases Nat.le_total a.1 b.1 with h | h <;> simp [Nat.ble_eq, h])
      (fun a b c hab hbc => by
        unfold quizNumLe at *
        rw [Nat.ble_eq] at *
        omega)
      (entries.filterMap fun e =>
        if e.2.isDir then (quizFolderNum e.1).map fun n => (n, e.1) else none)
    exact h.imp fun hab => Nat.ble_eq.mp hab
  · intro entries e he hnone k hk
    have hmem := (hperm entries).mem_iff.mp hk
    rcases List.mem_filterMap.mp hmem with ⟨e', _, he'⟩
    by_cases hd : e'.2.isDir
    · rw [if_pos hd] at he'
      rcases Option.map_eq_some'.mp he' with ⟨n, hn, heq⟩
      have hname : e'.1 = e.1 := congrArg Prod.snd heq
      rw [hname] at hn
      rw [hnone] at hn
      cases hn
    · rw [if_neg hd] at he'
      cases he'

/-- C4 witness: the theorem applied to a concrete listing in which `Notes`
matches neither convention and is therefore omitted. -/
theorem find_quiz_folders_spec_witness :
    ((5 : Nat), "Notes") ∉ find_quiz_folders
      [("Quiz1", Node.dir []), ("Notes", Node.dir []), ("Q2", Node.dir [])] :=
  find_quiz_folders_spec.2.2.2
    [("Quiz1", Node.dir []), ("Notes", Node.dir []), ("Q2", Node.dir [])]
    ("Notes", Node.dir [])
    (List.mem_cons_of_mem _ (List.mem_cons_self _ _)) rfl 5

/-! ## Entry lookup and update lemmas -/

theorem lookup_setEnt_self (es : List (String × Node)) (a : String) (x : Node) :
    lookupEnt (setEnt es a x) a = some x := by
  induction es with
  | nil => simp [setEnt, lookupEnt]
  | cons e rest ih =>
    unfold setEnt
    by_cases h : e.1 = a
    · rw [if_pos h]
      simp [lookupEnt, h]
    · rw [if_neg h]
      simp [lookupEnt, h, ih]

theorem lookup_setEnt_ne (es : List (String × Node)) (a b : String) (x : Node)
    (hne : b ≠ a) : lookupEnt (setEnt es a x) b = lookupEnt es b := by
  induction es with
  | nil => simp [setEnt, lookupEnt, Ne.symm hne]
  | cons e rest ih =>
    unfold setEnt
    by_cases h : e.1 = a
    · rw [if_pos h]
      have h2 : e.1 ≠ b := by rw [h]; exact fun hh => hne hh.symm
      simp [lookupEnt, h2]
    · rw [if_neg h]
      by_cases h2 : e.1 = b
      · simp [lookupEnt, h2]
      · simp [lookupEnt, h2, ih]

theorem lookup_append_one (es : List (String × Node)) (a : String) (x : Node)
    (h : lookupEnt es a = none) : lookupEnt (es ++ [(a, x)]) a = some x := by
  induction es with
  | nil => simp [lookupEnt]
  | cons e rest ih =>
    simp only [List.cons_append, lookupEnt] at h ⊢
    by_cases h2 : e.1 = a
    · rw [if_pos h2] at h
      cases h
    · rw [if_neg h2] at h ⊢
      exact ih h

theorem lookup_append_ne (es : List (String × Node)) (a b : String) (x : Node)
    (hne : b ≠ a) : lookupEnt (es ++ [(a, x)]) b = lookupEnt es b := by
  induction es with
  | nil => simp [lookupEnt, Ne.symm hne]
  | cons e rest ih =>
    simp only [List.cons_append, lookupEnt]
    by_cases h2 : e.1 = b
    · simp [h2]
    · simp [h2, ih]

/-! ## Write and mkdir lemmas -/

theorem writeF_ok_resolve : ∀ (p : List String) (t : Node) (pages : List Nat),
    (writeF t p pages).2 = true →
    resolve (writeF t p pages).1 p = some (Node.file (FileData.pdf pages)) := by
  intro p
  induction p with
  | nil =>
    intro t pages h
    cases t <;> simp [writeF] at h
  | cons name rest ih =>
    intro t pages h
    cases t with
    | file d => simp [writeF] at h
    | dir es =>
      cases rest with
      | nil =>
        cases hl : lookupEnt es name with
        | some child =>
          cases child with
          | dir es2 =>
            rw [writeF] at h
            simp only [hl] at h
            cases h
          | file fd =>
            rw [writeF] at h ⊢
            simp only [hl]
            simp [resolve, lookup_setEnt_self]
        | none =>
          rw [writeF]
          simp only [hl]
          simp [resolve, lookup_append_one es name _ hl]
      | cons r1 r2 =>
        cases hl : lookupEnt es name with
        | some child =>
          rw [writeF] at h ⊢
          simp only [hl] at h ⊢
          simp [resolve, lookup_setEnt_self]
          exact ih child pages h
        | none =>
          rw [writeF] at h
          simp only [hl] at h
          cases h

theorem resolve_parent : ∀ (p : List String) (t : Node) (a : String) (x : Node),
    resolve t (p ++ [a]) = some x → ∃ es, resolve t p = some (Node.dir es) := by
  intro p
  induction p with
  | nil =>
    intro t a x h
    cases t with
    | file d => simp [resolve] at h
    | dir es => exact ⟨es, rfl⟩
  | cons name rest ih =>
    intro t a x h
    cases t with
    | file d => simp [resolve] at h
    | dir es =>
      rw [List.cons_append, resolve] at h
      rw [resolve]
      cases hl : lookupEnt es name with
      | some child =>
        rw [hl] at h
        exact ih child a x h
      | none =>
        rw [hl] at h
        cases h

/-! ## C6: merge_pdfs error handling -/

/-- C6: `merge_pdfs` returns a boolean and never propagates an exception (it
is total in the model): an empty input list returns `False` immediately with
the filesystem untouched; an exception raised while appending an input, or
while creating directories or writing the output, is caught, its message
printed, and `False` returned; on success the destination directories exist,
the combined file is written at the output path — overwriting whatever file
was there — and `True` is returned. -/
theorem merge_pdfs_spec :
    (∀ t out, merge_pdfs t [] out = ⟨false, t, [], false, none⟩) ∧
    (∀ t ps out e, ps ≠ [] → readAll t ps = Except.error e →
      merge_pdfs t ps out = ⟨false, t, [errLine e], false, none⟩) ∧
    (∀ t ps out pages, ps ≠ [] → readAll t ps = Except.ok pages →
      (mkdirp t out.dropLast).2 = false →
      merge_pdfs t ps out
        = ⟨false, (mkdirp t out.dropLast).1, [errLine mkdirErrMsg], false, none⟩) ∧
    (∀ t ps out pages, ps ≠ [] → readAll t ps = Except.ok pages →
      (mkdirp t out.dropLast).2 = true →
      (writeF (mkdirp t out.dropLast).1 out pages).2 = false →
      merge_pdfs t ps out
        = ⟨false, (writeF (mkdirp t out.dropLast).1 out pages).1,
           [errLine writeErrMsg], false, none⟩) ∧
    (∀ t ps out pages, ps ≠ [] → readAll t ps = Except.ok pages →
      (mkdirp t out.dropLast).2 = true →
      (writeF (mkdirp t out.dropLast).1 out pages).2 = true →
      merge_pdfs t ps out
        = ⟨true, (writeF (mkdirp t out.dropLast).1 out pages).1, [], true, some pages⟩ ∧
      resolve (merge_pdfs t ps out).fs out = some (Node.file (FileData.pdf pages)) ∧
      (∀ q a, out = q ++ [a] →
        ∃ es, resolve (merge_pdfs t ps out).fs q = some (Node.dir es))) := by
  have hne : ∀ (ps : List (List String)), ps ≠ [] → ps.isEmpty = false := by
    intro ps h
    cases ps with
    | nil => exact absurd rfl h
    | cons a b => rfl
  refine ⟨?_, ?_, ?_, ?_, ?_⟩
  · intro t out
    rfl
  · intro t ps out e h hra
    simp [merge_pdfs, hne ps h, hra]
  · intro t ps out pages h hra hmk
    simp [merge_pdfs, hne ps h, hra, hmk]
  · intro t ps out pages h hra hmk hwr
    simp [merge_pdfs, hne ps h, hra, hmk, hwr]
  · intro t ps out pages h hra hmk hwr
    have hm : merge_pdfs t ps out
        = ⟨true, (writeF (mkdirp t out.dropLast).1 out pages).1, [], true, some pages⟩ := by
      simp [merge_pdfs, hne ps h, hra, hmk, hwr]
    refine ⟨hm, ?_, ?_⟩
    · rw [hm]
      exact writeF_ok_resolve out (mkdirp t out.dropLast).1 pages hwr
    · intro q a hout
      rw [hm]
      have hres := writeF_ok_resolve out (mkdirp t out.dropLast).1 pages hwr
      show ∃ es, resolve (writeF (mkdirp t out.dropLast).1 out pages).1 q
        = some (Node.dir es)
      refine resolve_parent q _ a (Node.file (FileData.pdf pages)) ?_
      rw [← hout]
      exact hres

/-- C6 witness: the theorem applied to the empty list, to a missing input
file, and to a complete successful merge. -/
theorem merge_pdfs_spec_witness :
    merge_pdfs (Node.dir []) [] (output_path 1 "2021" "fall")
      = ⟨false, Node.dir [], [], false, none⟩ ∧
    merge_pdfs (Node.dir []) [["missing.pdf"]] (output_path 1 "2021" "fall")
      = ⟨false, Node.dir [], [errLine "No such file or directory"], false, none⟩ ∧
    (merge_pdfs (Node.dir [("S", Node.dir [("a.pdf", Node.file (FileData.pdf [1, 2]))])])
        [["S", "a.pdf"]] (output_path 1 "2021" "fall")).ok = true :=
  ⟨merge_pdfs_spec.1 _ _,
   merge_pdfs_spec.2.1 _ _ _ _ (by simp) rfl,
   by rw [(merge_pdfs_spec.2.2.2.2
        (Node.dir [("S", Node.dir [("a.pdf", Node.file (FileData.pdf [1, 2]))])])
        [["S", "a.pdf"]] (output_path 1 "2021" "fall") [1, 2] (by simp) rfl rfl rfl).1]⟩

/-! ## C7: release of the merge object -/

/-- C7 counterexample: a call that constructs the merge object (the input
list is non-empty) but hits an exception while appending returns `False`
without having executed `merger.close()` — the claim that the merge object
is explicitly released on every such call is false. -/
theorem merge_close_counterexample :
    ([["missing.pdf"]] : List (List String)) ≠ [] ∧
    (merge_pdfs (Node.dir []) [["missing.pdf"]] (output_path 1 "2021" "fall")).ok = false ∧
    (merge_pdfs (Node.dir []) [["missing.pdf"]] (output_path 1 "2021" "fall")).closed = false :=
  ⟨by simp, rfl, rfl⟩

/-- C7 amended: `merger.close()` is the last statement of the `try` block,
so the merge object is explicitly released before returning exactly on the
calls that return `True`; every exception path returns without the explicit
release (the handles are then reclaimed only by garbage collection). -/
theorem merge_close_iff_ok (t : Node) (paths : List (List String)) (out : List String) :
    (merge_pdfs t paths out).closed = (merge_pdfs t paths out).ok := by
  unfold merge_pdfs
  by_cases hpe : paths.isEmpty = true
  · rw [if_pos hpe]
  · rw [if_neg hpe]
    cases hra : readAll t paths with
    | error e => rfl
    | ok pages =>
      dsimp only
      by_cases hmk : (mkdirp t out.dropLast).2 = true
      · rw [if_pos hmk]
        by_cases hwr : (writeF (mkdirp t out.dropLast).1 out pages).2 = true
        · rw [if_pos hwr]
        · rw [if_neg hwr]
      · rw [if_neg hmk]

/-! ## C1: output path and page count of a successful merge -/

/-- C1: when the part locator returns a complete 3-part quiz and the merge
succeeds, the output PDF is written at
`OUTPUT_DIR/"Quiz <n>"/"quiz_<n>_<year>_<season>.pdf"` — for quiz 3 of fall
2022 that is `Quizzes/Quiz 3/quiz_3_2022_fall.pdf` — and its pages are the
three parts' pages concatenated in input-list order, so its page count is
the sum of the three input page counts. -/
theorem merged_quiz_output_spec :
    (∀ (st : RunState) (season year semName : String) (qn : Nat) (qname f1 f2 f3 : String)
        (g1 g2 g3 : List Nat),
      (find_quiz_parts (semName ++ "/" ++ qname) (entriesAt st.fs [semName, qname]) qn).1
        = [f1, f2, f3] →
      readPdf st.fs [semName, qname, f1] = Except.ok g1 →
      readPdf st.fs [semName, qname, f2] = Except.ok g2 →
      readPdf st.fs [semName, qname, f3] = Except.ok g3 →
      (merge_pdfs st.fs [[semName, qname, f1], [semName, qname, f2], [semName, qname, f3]]
        (output_path qn year season)).ok = true →
      resolve (processQuiz st season year semName qn qname).fs (output_path qn year season)
          = some (Node.file (FileData.pdf (g1 ++ g2 ++ g3))) ∧
        (g1 ++ g2 ++ g3).length = g1.length + g2.length + g3.length) ∧
    output_path 3 "2022" "fall" = ["Quizzes", "Quiz 3", "quiz_3_2022_fall.pdf"] := by
  refine ⟨?_, by decide⟩
  intro st season year semName qn qname f1 f2 f3 g1 g2 g3 hfq h1 h2 h3 hok
  have hread : readAll st.fs
      [[semName, qname, f1], [semName, qname, f2], [semName, qname, f3]]
      = Except.ok (g1 ++ (g2 ++ g3)) := by
    simp [readAll, h1, h2, h3]
  set out := output_path qn year season with hout
  have hmk : (mkdirp st.fs out.dropLast).2 = true := by
    by_contra hc
    rw [Bool.not_eq_true] at hc
    have : (merge_pdfs st.fs
        [[semName, qname, f1], [semName, qname, f2], [semName, qname, f3]] out).ok = false := by
      simp [merge_pdfs, hread, hc]
    rw [this] at hok
    cases hok
  have hwr : (writeF (mkdirp st.fs out.dropLast).1 out (g1 ++ (g2 ++ g3))).2 = true := by
    by_contra hc
    rw [Bool.not_eq_true] at hc
    have : (merge_pdfs st.fs
        [[semName, qname, f1], [semName, qname, f2], [semName, qname, f3]] out).ok = false := by
      simp [merge_pdfs, hread, hmk, hc]
    rw [this] at hok
    cases hok
  have hm : merge_pdfs st.fs
      [[semName, qname, f1], [semName, qname, f2], [semName, qname, f3]] out
      = ⟨true, (writeF (mkdirp st.fs out.dropLast).1 out (g1 ++ (g2 ++ g3))).1, [], true,
         some (g1 ++ (g2 ++ g3))⟩ := by
    simp [merge_pdfs, hread, hmk, hwr]
  have hpq : (processQuiz st season year semName qn qname).fs
      = (merge_pdfs st.fs
          [[semName, qname, f1], [semName, qname, f2], [semName, qname, f3]] out).fs := by
    simp only [processQuiz]
    rw [hfq]
    simp only [List.length_cons, List.length_nil]
    rw [if_neg (by omega)]
    simp only [List.map_cons, List.map_nil]
    rw [← hout, hm]
    rfl
  refine ⟨?_, by simp; omega⟩
  rw [hpq, hm, List.append_assoc]
  exact writeF_ok_resolve out (mkdirp st.fs out.dropLast).1 (g1 ++ (g2 ++ g3)) hwr

/-- C1 witness: a concrete fall-2022 quiz 3 with three one-page parts merges
to `Quizzes/Quiz 3/quiz_3_2022_fall.pdf` holding pages `[1] ++ [2] ++ [3]`. -/
theorem merged_quiz_output_spec_witness :
    resolve (processQuiz
        ⟨Node.dir [("Quizzes-Fall-2022", Node.dir
            [("Quiz3", Node.dir
              [("Quiz3.1.pdf", Node.file (FileData.pdf [1])),
               ("Quiz3.2.pdf", Node.file (FileData.pdf [2])),
               ("Quiz3.3.pdf", Node.file (FileData.pdf [3]))])])],
          0, 0, [], [], [], []⟩
        "fall" "2022" "Quizzes-Fall-2022" 3 "Quiz3").fs
      (output_path 3 "2022" "fall")
      = some (Node.file (FileData.pdf ([1] ++ [2] ++ [3]))) :=
  (merged_quiz_output_spec.1
    ⟨Node.dir [("Quizzes-Fall-2022", Node.dir
        [("Quiz3", Node.dir
          [("Quiz3.1.pdf", Node.file (FileData.pdf [1])),
           ("Quiz3.2.pdf", Node.file (FileData.pdf [2])),
           ("Quiz3.3.pdf", Node.file (FileData.pdf [3]))])])],
      0, 0, [], [], [], []⟩
    "fall" "2022" "Quizzes-Fall-2022" 3 "Quiz3"
    "Quiz3.1.pdf" "Quiz3.2.pdf" "Quiz3.3.pdf" [1] [2] [3] rfl rfl rfl rfl rfl).1

/-! ## C5: incomplete quizzes are skipped with one error -/

theorem callsLen_processQuiz (st : RunState) (season year semName : String)
    (qn : Nat) (qname : String)
    (h : ∀ c ∈ st.calls, c.2.2.2.1.length = 3) :
    ∀ c ∈ (processQuiz st season year semName qn qname).calls, c.2.2.2.1.length = 3 := by
  intro c hc
  simp only [processQuiz] at hc
  split at hc
  · exact h c hc
  next h3 =>
    have hlen : (find_quiz_parts (semName ++ "/" ++ qname)
        (entriesAt st.fs [semName, qname]) qn).1.length = 3 := not_not.mp h3
    split at hc <;>
    · simp only [List.mem_append, List.mem_singleton] at hc
      rcases hc with hc | rfl
      · exact h c hc
      · simpa using hlen

theorem callsLen_processQuizzes : ∀ (qs : List (Nat × String))
    (st : RunState) (season year semName : String),
    (∀ c ∈ st.calls, c.2.2.2.1.length = 3) →
    ∀ c ∈ (processQuizzes st season year semName qs).calls, c.2.2.2.1.length = 3 := by
  intro qs
  induction qs with
  | nil =>
    intro st _ _ _ h
    exact h
  | cons q rest ih =>
    intro st s y sn h
    exact ih _ s y sn (callsLen_processQuiz st s y sn q.1 q.2 h)

theorem callsLen_processAll : ∀ (ss : List (String × String × String)) (st : RunState),
    (∀ c ∈ st.calls, c.2.2.2.1.length = 3) →
    ∀ c ∈ (processAll st ss).calls, c.2.2.2.1.length = 3 := by
  intro ss
  induction ss with
  | nil =>
    intro st h
    exact h
  | cons s rest ih =>
    intro st h
    exact ih _ (callsLen_processQuizzes _ _ s.1 s.2.1 s.2.2 h)

/-- C5: a quiz with fewer than 3 located parts increments the error counter
by exactly one, changes neither the filesystem nor the merged counter nor
the call and write traces, and the run proceeds; across a whole run,
`merge_pdfs` is invoked only with exactly 3 part paths. -/
theorem incomplete_quiz_skip_spec :
    (∀ (st : RunState) (season year semName : String) (qn : Nat) (qname : String),
      (find_quiz_parts (semName ++ "/" ++ qname)
        (entriesAt st.fs [semName, qname]) qn).1.length < 3 →
      (processQuiz st season year semName qn qname).fs = st.fs ∧
      (processQuiz st season year semName qn qname).errors = st.errors + 1 ∧
      (processQuiz st season year semName qn qname).merged = st.merged ∧
      (processQuiz st season year semName qn qname).calls = st.calls ∧
      (processQuiz st season year semName qn qname).writes = st.writes) ∧
    (∀ (w : List (String × Node)) c, c ∈ (main w).calls → c.2.2.2.1.length = 3) := by
  constructor
  · intro st season year semName qn qname h
    simp only [processQuiz]
    rw [if_pos (by omega :
      (find_quiz_parts (semName ++ "/" ++ qname)
        (entriesAt st.fs [semName, qname]) qn).1.length ≠ 3)]
    exact ⟨rfl, rfl, rfl, rfl, rfl⟩
  · intro w c hc
    simp only [main] at hc
    split at hc
    · simp at hc
    · exact callsLen_processAll _ _ (by simp) c hc

/-- C5 witness: a quiz folder holding only 2 of 3 parts is skipped with one
more error and no write, and in a concrete full run every merge invocation
carries 3 parts. -/
theorem incomplete_quiz_skip_spec_witness :
    ((processQuiz
        ⟨Node.dir [("Quizzes-Fall-2021", Node.dir
            [("Quiz2", Node.dir
              [("Quiz2.1.pdf", Node.file (FileData.pdf [1])),
               ("Quiz2.2.pdf", Node.file (FileData.pdf [2]))])])],
          0, 5, [], [], [], []⟩
        "fall" "2021" "Quizzes-Fall-2021" 2 "Quiz2").errors = 5 + 1 ∧
      (processQuiz
        ⟨Node.dir [("Quizzes-Fall-2021", Node.dir
            [("Quiz2", Node.dir
              [("Quiz2.1.pdf", Node.file (FileData.pdf [1])),
               ("Quiz2.2.pdf", Node.file (FileData.pdf [2]))])])],
          0, 5, [], [], [], []⟩
        "fall" "2021" "Quizzes-Fall-2021" 2 "Quiz2").writes = []) ∧
    ((3 : Nat), ("fall" : String), ("2021" : String),
      ([["Quizzes-Fall-2021", "Quiz3", "Quiz3.1.pdf"],
        ["Quizzes-Fall-2021", "Quiz3", "Quiz3.2.pdf"],
        ["Quizzes-Fall-2021", "Quiz3", "Quiz3.3.pdf"]] : List (List String)),
      output_path 3 "2021" "fall").2.2.2.1.length = 3 := by
  constructor
  · have h := (incomplete_quiz_skip_spec.1
      ⟨Node.dir [("Quizzes-Fall-2021", Node.dir
          [("Quiz2", Node.dir
            [("Quiz2.1.pdf", Node.file (FileData.pdf [1])),
             ("Quiz2.2.pdf", Node.file (FileData.pdf [2]))])])],
        0, 5, [], [], [], []⟩
      "fall" "2021" "Quizzes-Fall-2021" 2 "Quiz2" (by decide))
    exact ⟨h.2.1, h.2.2.2.2⟩
  · exact incomplete_quiz_skip_spec.2
      [("Quizzes-Fall-2021", Node.dir
          [("Quiz3", Node.dir
            [("Quiz3.1.pdf", Node.file (FileData.pdf [1])),
             ("Quiz3.2.pdf", Node.file (FileData.pdf [2])),
             ("Quiz3.3.pdf", Node.file (FileData.pdf [3]))])])]
      _ (by decide)

/-! ## Frame lemmas: a run only touches the `Quizzes` entry -/

theorem nonQ_setEnt (es : List (String × Node)) (x : Node) :
    nonQ (setEnt es OUTPUT_DIR x) = nonQ es := by
  induction es with
  | nil => simp [setEnt, nonQ]
  | cons e rest ih =>
    unfold setEnt
    by_cases h : e.1 = OUTPUT_DIR
    · rw [if_pos h]
      simp [nonQ, List.filter, h]
    · rw [if_neg h]
      simp only [nonQ, List.filter] at ih ⊢
      rw [ih]

theorem nonQ_append_q (es : List (String × Node)) (x : Node) :
    nonQ (es ++ [(OUTPUT_DIR, x)]) = nonQ es := by
  simp [nonQ, List.filter_append]

theorem lookup_nonQ (es : List (String × Node)) (n : String) (h : n ≠ OUTPUT_DIR) :
    lookupEnt (nonQ es) n = lookupEnt es n := by
  induction es with
  | nil => simp [nonQ, lookupEnt]
  | cons e rest ih =>
    by_cases hq : e.1 = OUTPUT_DIR
    · have hne : e.1 ≠ n := by rw [hq]; exact fun hh => h hh.symm
      simp only [nonQ, List.filter] at ih ⊢
      rw [hq]
      simp only [beq_self_eq_true, Bool.not_true]
      rw [lookupEnt, if_neg hne]
      exact ih
    · simp only [nonQ, List.filter] at ih ⊢
      have : (!(e.1 == OUTPUT_DIR)) = true := by simp [hq]
      rw [this]
      rw [lookupEnt, lookupEnt]
      by_cases hn : e.1 = n
      · simp [hn]
      · rw [if_neg hn, if_neg hn]
        exact ih

theorem resolve_nonQ_eq (es1 es2 : List (String × Node)) (h : nonQ es1 = nonQ es2)
    (n : String) (hn : n ≠ OUTPUT_DIR) (p : List String) :
    resolve (Node.dir es1) (n :: p) = resolve (Node.dir es2) (n :: p) := by
  have h1 := lookup_nonQ es1 n hn
  have h2 := lookup_nonQ es2 n hn
  rw [resolve, resolve]
  rw [← h1, ← h2, h]

theorem nonQ_mkdirp (t : Node) (rest : List String) :
    nonQ (mkdirp t (OUTPUT_DIR :: rest)).1.entriesOf = nonQ t.entriesOf := by
  cases t with
  | file d => rfl
  | dir es =>
    rw [mkdirp]
    cases h : lookupEnt es OUTPUT_DIR with
    | some child =>
      simp only [Node.entriesOf]
      exact nonQ_setEnt es _
    | none =>
      simp only [Node.entriesOf]
      exact nonQ_append_q es _

theorem isDir_mkdirp (es : List (String × Node)) (p : List String) :
    (mkdirp (Node.dir es) p).1.isDir = true := by
  cases p with
  | nil => rfl
  | cons a rest =>
    rw [mkdirp]
    cases lookupEnt es a <;> rfl

theorem nonQ_writeF (t : Node) (rest : List String) (pages : List Nat) :
    nonQ (writeF t (OUTPUT_DIR :: rest) pages).1.entriesOf = nonQ t.entriesOf := by
  cases t with
  | file d => rfl
  | dir es =>
    cases rest with
    | nil =>
      rw [writeF]
      cases h : lookupEnt es OUTPUT_DIR with
      | some child =>
        cases child with
        | dir es2 => rfl
        | file fd =>
          simp only [Node.entriesOf]
          exact nonQ_setEnt es _
      | none =>
        simp only [Node.entriesOf]
        exact nonQ_append_q es _
    | cons r1 r2 =>
      rw [writeF]
      cases h : lookupEnt es OUTPUT_DIR with
      | some child =>
        simp only [Node.entriesOf]
        exact nonQ_setEnt es _
      | none => rfl

theorem isDir_writeF (es : List (String × Node)) (p : List String) (pages : List Nat) :
    (writeF (Node.dir es) p pages).1.isDir = true := by
  cases p with
  | nil => rfl
  | cons a rest =>
    cases rest with
    | nil =>
      rw [writeF]
      cases h : lookupEnt es a with
      | some child => cases child <;> rfl
      | none => rfl
    | cons r1 r2 =>
      rw [writeF]
      cases lookupEnt es a <;> rfl

theorem nonQ_merge (t : Node) (parts : List (List String)) (qn : Nat) (year season : String) :
    nonQ (merge_pdfs t parts (output_path qn year season)).fs.entriesOf
      = nonQ t.entriesOf := by
  unfold merge_pdfs
  by_cases hpe : parts.isEmpty = true
  · rw [if_pos hpe]
  · rw [if_neg hpe]
    cases hra : readAll t parts with
    | error e => rfl
    | ok pages =>
      dsimp only
      have hdl : (output_path qn year season).dropLast = [OUTPUT_DIR, output_folder qn] := rfl
      have hmk := nonQ_mkdirp t [output_folder qn]
      rw [hdl]
      by_cases hm : (mkdirp t [OUTPUT_DIR, output_folder qn]).2 = true
      · rw [if_pos hm]
        have hwr := nonQ_writeF (mkdirp t [OUTPUT_DIR, output_folder qn]).1
          [output_folder qn, output_filename qn year season] pages
        by_cases hw : (writeF (mkdirp t [OUTPUT_DIR, output_folder qn]).1
            (output_path qn year season) pages).2 = true
        · rw [if_pos hw]
          simp only [MergeOut.fs]
          rw [show output_path qn year season
            = OUTPUT_DIR :: [output_folder qn, output_filename qn year season] from rfl] at hw ⊢
          rw [hwr.trans hmk]
        · rw [if_neg hw]
          simp only [MergeOut.fs]
          rw [show output_path qn year season
            = OUTPUT_DIR :: [output_folder qn, output_filename qn year season] from rfl]
          rw [hwr.trans hmk]
      · rw [if_neg hm]
        simp only [MergeOut.fs]
        exact hmk

theorem isDir_merge (es : List (String × Node)) (parts : List (List String))
    (out : List String) :
    (merge_pdfs (Node.dir es) parts out).fs.isDir = true := by
  unfold merge_pdfs
  by_cases hpe : parts.isEmpty = true
  · rw [if_pos hpe]
    rfl
  · rw [if_neg hpe]
    cases hra : readAll (Node.dir es) parts with
    | error e => rfl
    | ok pages =>
      dsimp only
      have hmd := isDir_mkdirp es out.dropLast
      rcases hmk2 : (mkdirp (Node.dir es) out.dropLast).1 with ⟨es2⟩ | ⟨d2⟩
      · by_cases hm : (mkdirp (Node.dir es) out.dropLast).2 = true
        · rw [if_pos hm]
          have hwd := isDir_writeF es2 out pages
          by_cases hw : (writeF (Node.dir es2) out pages).2 = true
          · rw [if_pos hw]
            exact hwd
          · rw [if_neg hw]
            exact hwd
        · rw [if_neg hm]
          rfl
      · rw [hmk2] at hmd
        cases hmd

theorem isDir_merge' (t : Node) (hd : t.isDir = true) (parts : List (List String))
    (out : List String) : (merge_pdfs t parts out).fs.isDir = true := by
  rcases t with ⟨es⟩ | ⟨d⟩
  · exact isDir_merge es parts out
  · cases hd

theorem fs_processQuiz (st : RunState) (season year semName : String)
    (qn : Nat) (qname : String) (hd : st.fs.isDir = true) :
    (processQuiz st season year semName qn qname).fs.isDir = true ∧
    nonQ (processQuiz st season year semName qn qname).fs.entriesOf
      = nonQ st.fs.entriesOf := by
  simp only [processQuiz]
  split
  · exact ⟨hd, rfl⟩
  · split
    · exact ⟨isDir_merge' _ hd _ _, nonQ_merge _ _ _ _ _⟩
    · exact ⟨isDir_merge' _ hd _ _, nonQ_merge _ _ _ _ _⟩

theorem fs_processQuizzes : ∀ (qs : List (Nat × String)) (st : RunState)
    (season year semName : String), st.fs.isDir = true →
    (processQuizzes st season year semName qs).fs.isDir = true ∧
    nonQ (processQuizzes st season year semName qs).fs.entriesOf
      = nonQ st.fs.entriesOf := by
  intro qs
  induction qs with
  | nil =>
    intro st s y sn hd
    exact ⟨hd, rfl⟩
  | cons q rest ih =>
    intro st s y sn hd
    have h1 := fs_processQuiz st s y sn q.1 q.2 hd
    have h2 := ih (processQuiz st s y sn q.1 q.2) s y sn h1.1
    exact ⟨h2.1, h2.2.trans h1.2⟩

theorem fs_processSemester (st : RunState) (sem : String × String × String)
    (hd : st.fs.isDir = true) :
    (processSemester st sem).fs.isDir = true ∧
    nonQ (processSemester st sem).fs.entriesOf = nonQ st.fs.entriesOf := by
  unfold processSemester
  exact fs_processQuizzes _ _ _ _ _ hd

theorem fs_processAll : ∀ (ss : List (String × String × String)) (st : RunState),
    st.fs.isDir = true →
    (processAll st ss).fs.isDir = true ∧
    nonQ (processAll st ss).fs.entriesOf = nonQ st.fs.entriesOf := by
  intro ss
  induction ss with
  | nil =>
    intro st hd
    exact ⟨hd, rfl⟩
  | cons s rest ih =>
    intro st hd
    have h1 := fs_processSemester st s hd
    have h2 := ih (processSemester st s) h1.1
    exact ⟨h2.1, h2.2.trans h1.2⟩

theorem fs_main (w : List (String × Node)) :
    (main w).fs.isDir = true ∧ nonQ (main w).fs.entriesOf = nonQ w := by
  simp only [main]
  split
  · exact ⟨rfl, rfl⟩
  · exact fs_processAll (sortedSemesters w)
      ⟨Node.dir w, 0, 0, headerPrints ++ semListPrints (sortedSemesters w), [], [], []⟩ rfl

/-! ## C10: frame condition of a whole run -/

theorem traceShape_processQuiz (st : RunState) (season year semName : String)
    (qn : Nat) (qname : String)
    (hc : ∀ c ∈ st.calls, c.2.2.2.2 = output_path c.1 c.2.2.1 c.2.1)
    (hw : ∀ x ∈ st.writes, ∃ k y s, x.1 = output_path k y s) :
    (∀ c ∈ (processQuiz st season year semName qn qname).calls,
      c.2.2.2.2 = output_path c.1 c.2.2.1 c.2.1) ∧
    (∀ x ∈ (processQuiz st season year semName qn qname).writes,
      ∃ k y s, x.1 = output_path k y s) := by
  simp only [processQuiz]
  split
  · exact ⟨hc, hw⟩
  · split
    · constructor
      · intro c hcc
        simp only [List.mem_append, List.mem_singleton] at hcc
        rcases hcc with hcc | rfl
        · exact hc c hcc
        · rfl
      · intro x hx
        simp only [List.mem_append, List.mem_singleton] at hx
        rcases hx with hx | rfl
        · exact hw x hx
        · exact ⟨qn, year, season, rfl⟩
    · constructor
      · intro c hcc
        simp only [List.mem_append, List.mem_singleton] at hcc
        rcases hcc with hcc | rfl
        · exact hc c hcc
        · rfl
      · exact hw

theorem traceShape_processQuizzes : ∀ (qs : List (Nat × String)) (st : RunState)
    (season year semName : String),
    (∀ c ∈ st.calls, c.2.2.2.2 = output_path c.1 c.2.2.1 c.2.1) →
    (∀ x ∈ st.writes, ∃ k y s, x.1 = output_path k y s) →
    (∀ c ∈ (processQuizzes st season year semName qs).calls,
      c.2.2.2.2 = output_path c.1 c.2.2.1 c.2.1) ∧
    (∀ x ∈ (processQuizzes st season year semName qs).writes,
      ∃ k y s, x.1 = output_path k y s) := by
  intro qs
  induction qs with
  | nil =>
    intro st s y sn hc hw
    exact ⟨hc, hw⟩
  | cons q rest ih =>
    intro st s y sn hc hw
    have h1 := traceShape_processQuiz st s y sn q.1 q.2 hc hw
    exact ih _ s y sn h1.1 h1.2

theorem traceShape_processSemester (st : RunState) (sem : String × String × String)
    (hc : ∀ c ∈ st.calls, c.2.2.2.2 = output_path c.1 c.2.2.1 c.2.1)
    (hw : ∀ x ∈ st.writes, ∃ k y s, x.1 = output_path k y s) :
    (∀ c ∈ (processSemester st sem).calls, c.2.2.2.2 = output_path c.1 c.2.2.1 c.2.1) ∧
    (∀ x ∈ (processSemester st sem).writes, ∃ k y s, x.1 = output_path k y s) := by
  unfold processSemester
  exact traceShape_processQuizzes _ _ _ _ _ hc hw

theorem traceShape_processAll : ∀ (ss : List (String × String × String)) (st : RunState),
    (∀ c ∈ st.calls, c.2.2.2.2 = output_path c.1 c.2.2.1 c.2.1) →
    (∀ x ∈ st.writes, ∃ k y s, x.1 = output_path k y s) →
    (∀ c ∈ (processAll st ss).calls, c.2.2.2.2 = output_path c.1 c.2.2.1 c.2.1) ∧
    (∀ x ∈ (processAll st ss).writes, ∃ k y s, x.1 = output_path k y s) := by
  intro ss
  induction ss with
  | nil =>
    intro st hc hw
    exact ⟨hc, hw⟩
  | cons s rest ih =>
    intro st hc hw
    have h1 := traceShape_processSemester st s hc hw
    exact ih _ h1.1 h1.2

/-- C10: a run never modifies or deletes anything outside the output
directory — every path that does not start with `OUTPUT_DIR` resolves to the
same node (same content) after the run as before — and the only writes it
performs target merge outputs `OUTPUT_DIR/"Quiz <k>"/"quiz_<k>_<y>_<s>.pdf"`
(directories are created only along those paths by `mkdir(parents=True)`). -/
theorem run_frame_spec :
    (∀ (w : List (String × Node)) (n : String) (p : List String), n ≠ OUTPUT_DIR →
      resolve (main w).fs (n :: p) = resolve (Node.dir w) (n :: p)) ∧
    (∀ (w : List (String × Node)) c, c ∈ (main w).calls →
      c.2.2.2.2 = output_path c.1 c.2.2.1 c.2.1) ∧
    (∀ (w : List (String × Node)) x, x ∈ (main w).writes →
      ∃ k y s, x.1 = output_path k y s) := by
  refine ⟨?_, ?_, ?_⟩
  · intro w n p hn
    rcases fs_main w with ⟨hd, hq⟩
    rcases hfs : (main w).fs with ⟨es⟩ | ⟨d⟩
    · rw [hfs] at hq
      exact resolve_nonQ_eq es w hq n hn p
    · rw [hfs] at hd
      cases hd
  · intro w c hcc
    simp only [main] at hcc
    split at hcc
    · simp at hcc
    · exact (traceShape_processAll _ _ (by simp) (by simp)).1 c hcc
  · intro w x hx
    simp only [main] at hx
    split at hx
    · simp at hx
    · exact (traceShape_processAll _ _ (by simp) (by simp)).2 x hx

/-- C10 witness: in a concrete run with one complete quiz, a file outside
the output directory is untouched and the single write targets a merge
output path. -/
theorem run_frame_spec_witness :
    resolve (main [("Quizzes-Fall-2021", Node.dir
        [("Quiz3", Node.dir
          [("Quiz3.1.pdf", Node.file (FileData.pdf [1])),
           ("Quiz3.2.pdf", Node.file (FileData.pdf [2])),
           ("Quiz3.3.pdf", Node.file (FileData.pdf [3]))])])]).fs
      ["Quizzes-Fall-2021", "Quiz3", "Quiz3.1.pdf"]
      = resolve (Node.dir [("Quizzes-Fall-2021", Node.dir
          [("Quiz3", Node.dir
            [("Quiz3.1.pdf", Node.file (FileData.pdf [1])),
             ("Quiz3.2.pdf", Node.file (FileData.pdf [2])),
             ("Quiz3.3.pdf", Node.file (FileData.pdf [3]))])])])
        ["Quizzes-Fall-2021", "Quiz3", "Quiz3.1.pdf"] :=
  run_frame_spec.1 _ "Quizzes-Fall-2021" ["Quiz3", "Quiz3.1.pdf"] (by decide)

/-! ## C8: the sweep visits every quiz of every recognized semester -/

theorem visits_processQuiz (st : RunState) (season year semName : String)
    (qn : Nat) (qname : String) :
    (processQuiz st season year semName qn qname).visits
      = st.visits ++ [(season, year, qn, qname)] := by
  simp only [processQuiz]
  split
  · rfl
  · split <;> rfl

theorem visits_processQuizzes : ∀ (qs : List (Nat × String)) (st : RunState)
    (season year semName : String),
    (processQuizzes st season year semName qs).visits
      = st.visits ++ qs.map fun q => (season, year, q.1, q.2) := by
  intro qs
  induction qs with
  | nil =>
    intro st s y sn
    simp [processQuizzes]
  | cons q rest ih =>
    intro st s y sn
    rw [processQuizzes, ih, visits_processQuiz]
    simp

theorem mem_scanSemesters (w : List (String × Node)) (x : String × String × String)
    (hx : x ∈ scanSemesters w) : parse_semester_folder x.2.2 = some (x.1, x.2.1) := by
  rcases List.mem_filterMap.mp hx with ⟨e, _, hee⟩
  by_cases hd : e.2.isDir
  · rw [if_pos hd] at hee
    rcases Option.map_eq_some'.mp hee with ⟨sy, hsy, hxx⟩
    rw [← hxx]
    simpa using hsy
  · rw [if_neg hd] at hee
    cases hee

theorem mem_sortedSemesters_ne (w : List (String × Node)) (x : String × String × String)
    (hx : x ∈ sortedSemesters w) : x.2.2 ≠ OUTPUT_DIR := by
  intro hq
  have hx2 : x ∈ scanSemesters w := (perm_insSort semLe (scanSemesters w)).mem_iff.mp hx
  have hp := mem_scanSemesters w x hx2
  rw [hq] at hp
  rw [show parse_semester_folder OUTPUT_DIR = none from by decide] at hp
  cases hp

theorem visits_processSemester (st : RunState) (sem : String × String × String)
    (es0 : List (String × Node)) (hd : st.fs.isDir = true)
    (hq : nonQ st.fs.entriesOf = nonQ es0) (hs : sem.2.2 ≠ OUTPUT_DIR) :
    (processSemester st sem).visits = st.visits ++
      (find_quiz_folders (entriesAt (Node.dir es0) [sem.2.2])).map
        fun q => (sem.1, sem.2.1, q.1, q.2) := by
  unfold processSemester
  rw [visits_processQuizzes]
  rcases hfs : st.fs with ⟨es⟩ | ⟨d⟩
  · have hres : resolve (Node.dir es) [sem.2.2] = resolve (Node.dir es0) [sem.2.2] := by
      rw [hfs] at hq
      exact resolve_nonQ_eq es es0 hq sem.2.2 hs []
    have hent : entriesAt (Node.dir es) [sem.2.2] = entriesAt (Node.dir es0) [sem.2.2] := by
      unfold entriesAt
      rw [hres]
    simp only [hfs]
    rw [hent]
  · rw [hfs] at hd
    cases hd

theorem visits_processAll : ∀ (ss : List (String × String × String)) (st : RunState)
    (es0 : List (String × Node)), st.fs.isDir = true →
    nonQ st.fs.entriesOf = nonQ es0 →
    (∀ sem ∈ ss, sem.2.2 ≠ OUTPUT_DIR) →
    (processAll st ss).visits = st.visits ++ ss.flatMap fun sem =>
      (find_quiz_folders (entriesAt (Node.dir es0) [sem.2.2])).map
        fun q => (sem.1, sem.2.1, q.1, q.2) := by
  intro ss
  induction ss with
  | nil =>
    intro st es0 hd hq hss
    simp [processAll]
  | cons s rest ih =>
    intro st es0 hd hq hss
    rw [processAll]
    rcases fs_processSemester st s hd with ⟨hd2, hq2⟩
    rw [ih (processSemester st s) es0 hd2 (hq2.trans hq)
      (fun sem hm => hss sem (List.mem_cons_of_mem s hm))]
    rw [visits_processSemester st s es0 hd hq (hss s (List.mem_cons_self s rest))]
    simp [List.flatMap_cons]

/-- C8 counterexample: on a workspace with no recognized semester folder the
run stops after reporting and never prints the summary block. -/
theorem run_summary_counterexample :
    "Summary" ∉ (main [("Notes", Node.dir [])]).prints ∧
    (main [("Notes", Node.dir [])]).prints
      = headerPrints ++ ["No semester folders found!"] := by
  constructor
  · decide
  · rfl

/-- C8 amended: a run of `main` always terminates (the model is a total
function); when at least one semester folder is recognized it visits every
quiz folder of every recognized semester exactly once, in sorted order, with
no per-quiz error aborting the sweep and no retries, and prints the final
summary; with no recognized semester it prints `No semester folders found!`
and returns without the summary. -/
theorem run_sweep_spec (w : List (String × Node)) :
    (sortedSemesters w ≠ [] →
      (main w).visits = (sortedSemesters w).flatMap (fun sem =>
        (find_quiz_folders (entriesAt (Node.dir w) [sem.2.2])).map
          fun q => (sem.1, sem.2.1, q.1, q.2)) ∧
      "Summary" ∈ (main w).prints) ∧
    (sortedSemesters w = [] →
      "No semester folders found!" ∈ (main w).prints ∧ (main w).visits = []) := by
  simp only [main]
  split
  next hemp =>
    refine ⟨fun hne => absurd ?_ hne, fun _ => ⟨by simp, rfl⟩⟩
    simpa using hemp
  next hemp =>
    refine ⟨fun _ => ⟨?_, ?_⟩, fun he => absurd he (by simpa using hemp)⟩
    · rw [visits_processAll (sortedSemesters w)
        ⟨Node.dir w, 0, 0, headerPrints ++ semListPrints (sortedSemesters w), [], [], []⟩
        w rfl rfl (fun sem hm => mem_sortedSemesters_ne w sem hm)]
      simp
    · simp [summaryPrints]

/-- C8 witness: a concrete run with one semester holding one (incomplete)
quiz visits that quiz and prints the summary. -/
theorem run_sweep_spec_witness :
    (main [("Quizzes-Fall-2021", Node.dir [("Quiz1", Node.dir [])])]).visits
      = [("fall", "2021", 1, "Quiz1")] ∧
    "Summary" ∈ (main [("Quizzes-Fall-2021", Node.dir [("Quiz1", Node.dir [])])]).prints := by
  have h := (run_sweep_spec [("Quizzes-Fall-2021", Node.dir [("Quiz1", Node.dir [])])]).1
    (by decide)
  refine ⟨?_, h.2⟩
  rw [h.1]
  rfl

/-! ## C9: the second run of `main` behaves identically

The proof rests on two facts.  First, a run reads only outside `OUTPUT_DIR`
and its writes keep that part exactly (the frame lemmas above).  Second, the
success of each `mkdir`/write depends on the `Quizzes` subtree only through
the blocking observations of `obsEq`, and every write a run can perform
leaves those observations unchanged — directories are only created where
none or a directory existed, files are only (over)written where no directory
existed.  Hence the final state of the first run is `obsEq` to the initial
state, and a second run repeats the same reads, decisions and writes. -/

theorem setEnt_lookup_self (es : List (String × Node)) (a : String) (v : Node)
    (h : lookupEnt es a = some v) : setEnt es a v = es := by
  induction es with
  | nil => cases h
  | cons e rest ih =>
    rw [lookupEnt] at h
    rw [setEnt]
    by_cases ha : e.1 = a
    · rw [if_pos ha] at h
      rw [if_pos ha]
      cases h
      rfl
    · rw [if_neg ha] at h
      rw [if_neg ha, ih h]

theorem mkdirp2_cases (es : List (String × Node)) (d : String) :
    (lookupEnt es OUTPUT_DIR = none ∧
      mkdirp (Node.dir es) [OUTPUT_DIR, d]
        = (Node.dir (es ++ [(OUTPUT_DIR, Node.dir [(d, Node.dir [])])]), true)) ∨
    (∃ fd, lookupEnt es OUTPUT_DIR = some (Node.file fd) ∧
      mkdirp (Node.dir es) [OUTPUT_DIR, d] = (Node.dir es, false)) ∨
    (∃ es2, lookupEnt es OUTPUT_DIR = some (Node.dir es2) ∧
      ((lookupEnt es2 d = none ∧
        mkdirp (Node.dir es) [OUTPUT_DIR, d]
          = (Node.dir (setEnt es OUTPUT_DIR (Node.dir (es2 ++ [(d, Node.dir [])]))), true)) ∨
       (∃ fd2, lookupEnt es2 d = some (Node.file fd2) ∧
        mkdirp (Node.dir es) [OUTPUT_DIR, d] = (Node.dir es, false)) ∨
       (∃ es3, lookupEnt es2 d = some (Node.dir es3) ∧
        mkdirp (Node.dir es) [OUTPUT_DIR, d] = (Node.dir es, true)))) := by
  cases hq : lookupEnt es OUTPUT_DIR with
  | none =>
    refine Or.inl ⟨rfl, ?_⟩
    rw [mkdirp, hq]
    dsimp only
    rw [mkdirp]
    rw [show lookupEnt ([] : List (String × Node)) d = none from rfl]
    rfl
  | some child =>
    cases child with
    | file fd =>
      refine Or.inr (Or.inl ⟨fd, rfl, ?_⟩)
      rw [mkdirp, hq]
      dsimp only
      rw [show mkdirp (Node.file fd) [d] = (Node.file fd, false) from rfl]
      dsimp only
      rw [setEnt_lookup_self es OUTPUT_DIR (Node.file fd) hq]
    | dir es2 =>
      refine Or.inr (Or.inr ⟨es2, rfl, ?_⟩)
      cases hd : lookupEnt es2 d with
      | none =>
        refine Or.inl ⟨rfl, ?_⟩
        rw [mkdirp, hq]
        dsimp only
        rw [mkdirp, hd]
        rfl
      | some child2 =>
        cases child2 with
        | file fd2 =>
          refine Or.inr (Or.inl ⟨fd2, rfl, ?_⟩)
          rw [mkdirp, hq]
          dsimp only
          rw [mkdirp, hd]
          dsimp only
          rw [show mkdirp (Node.file fd2) [] = (Node.file fd2, false) from rfl]
          dsimp only
          rw [setEnt_lookup_self es2 d (Node.file fd2) hd]
          rw [setEnt_lookup_self es OUTPUT_DIR (Node.dir es2) hq]
        | dir es3 =>
          refine Or.inr (Or.inr ⟨es3, rfl, ?_⟩)
          rw [mkdirp, hq]
          dsimp only
          rw [mkdirp, hd]
          dsimp only
          rw [show mkdirp (Node.dir es3) [] = (Node.dir es3, true) from rfl]
          dsimp only
          rw [setEnt_lookup_self es2 d (Node.dir es3) hd]
          rw [setEnt_lookup_self es OUTPUT_DIR (Node.dir es2) hq]

theorem writeF3_cases (es : List (String × Node)) (d f : String) (pages : List Nat) :
    (lookupEnt es OUTPUT_DIR = none ∧
      writeF (Node.dir es) [OUTPUT_DIR, d, f] pages = (Node.dir es, false)) ∨
    (∃ fd, lookupEnt es OUTPUT_DIR = some (Node.file fd) ∧
      writeF (Node.dir es) [OUTPUT_DIR, d, f] pages = (Node.dir es, false)) ∨
    (∃ es2, lookupEnt es OUTPUT_DIR = some (Node.dir es2) ∧
      ((lookupEnt es2 d = none ∧
        writeF (Node.dir es) [OUTPUT_DIR, d, f] pages = (Node.dir es, false)) ∨
       (∃ fd2, lookupEnt es2 d = some (Node.file fd2) ∧
        writeF (Node.dir es) [OUTPUT_DIR, d, f] pages = (Node.dir es, false)) ∨
       (∃ es3, lookupEnt es2 d = some (Node.dir es3) ∧
        (((∃ es4, lookupEnt es3 f = some (Node.dir es4)) ∧
          writeF (Node.dir es) [OUTPUT_DIR, d, f] pages = (Node.dir es, false)) ∨
         (∃ fd3, lookupEnt es3 f = some (Node.file fd3) ∧
          writeF (Node.dir es) [OUTPUT_DIR, d, f] pages
            = (Node.dir (setEnt es OUTPUT_DIR (Node.dir (setEnt es2 d
                (Node.dir (setEnt es3 f (Node.file (FileData.pdf pages))))))), true)) ∨
         (lookupEnt es3 f = none ∧
          writeF (Node.dir es) [OUTPUT_DIR, d, f] pages
            = (Node.dir (setEnt es OUTPUT_DIR (Node.dir (setEnt es2 d
                (Node.dir (es3 ++ [(f, Node.file (FileData.pdf pages))]))))), true)))))) := by
  cases hq : lookupEnt es OUTPUT_DIR with
  | none =>
    refine Or.inl ⟨rfl, ?_⟩
    rw [writeF, hq]
  | some child =>
    cases child with
    | file fd =>
      refine Or.inr (Or.inl ⟨fd, rfl, ?_⟩)
      rw [writeF, hq]
      dsimp only
      rw [show writeF (Node.file fd) [d, f] pages = (Node.file fd, false) from rfl]
      dsimp only
      rw [setEnt_lookup_self es OUTPUT_DIR (Node.file fd) hq]
    | dir es2 =>
      refine Or.inr (Or.inr ⟨es2, rfl, ?_⟩)
      cases hd : lookupEnt es2 d with
      | none =>
        refine Or.inl ⟨rfl, ?_⟩
        rw [writeF, hq]
        dsimp only
        rw [writeF, hd]
        dsimp only
        rw [setEnt_lookup_self es OUTPUT_DIR (Node.dir es2) hq]
      | some child2 =>
        cases child2 with
        | file fd2 =>
          refine Or.inr (Or.inl ⟨fd2, rfl, ?_⟩)
          rw [writeF, hq]
          dsimp only
          rw [writeF, hd]
          dsimp only
          rw [show writeF (Node.file fd2) [f] pages = (Node.file fd2, false) from rfl]
          dsimp only
          rw [setEnt_lookup_self es2 d (Node.file fd2) hd]
          rw [setEnt_lookup_self es OUTPUT_DIR (Node.dir es2) hq]
        | dir es3 =>
          refine Or.inr (Or.inr ⟨es3, rfl, ?_⟩)
          cases hf : lookupEnt es3 f with
          | none =>
            refine Or.inr (Or.inr ⟨rfl, ?_⟩)
            rw [writeF, hq]
            dsimp only
            rw [writeF, hd]
            dsimp only
            rw [writeF, hf]
          | some child3 =>
            cases child3 with
            | file fd3 =>
              refine Or.inr (Or.inl ⟨fd3, rfl, ?_⟩)
              rw [writeF, hq]
              dsimp only
              rw [writeF, hd]
              dsimp only
              rw [writeF, hf]
            | dir es4 =>
              refine Or.inl ⟨⟨es4, rfl⟩, ?_⟩
              rw [writeF, hq]
              dsimp only
              rw [writeF, hd]
              dsimp only
              rw [writeF, hf]
              dsimp only
              rw [setEnt_lookup_self es2 d (Node.dir es3) hd]
              rw [setEnt_lookup_self es OUTPUT_DIR (Node.dir es2) hq]

theorem obsEq_refl (t : Node) : obsEq t t :=
  ⟨rfl, rfl, fun _ => rfl, fun _ _ => rfl⟩

theorem obsEq_symm {a b : Node} (h : obsEq a b) : obsEq b a :=
  ⟨h.1.symm, h.2.1.symm, fun d => (h.2.2.1 d).symm, fun d f => (h.2.2.2 d f).symm⟩

theorem obsEq_trans {a b c : Node} (h1 : obsEq a b) (h2 : obsEq b c) : obsEq a c :=
  ⟨h1.1.trans h2.1, h1.2.1.trans h2.2.1, fun d => (h1.2.2.1 d).trans (h2.2.2.1 d),
   fun d f => (h1.2.2.2 d f).trans (h2.2.2.2 d f)⟩

theorem entK_top_set (es inner : List (String × Node)) :
    entKindFile (setEnt es OUTPUT_DIR (Node.dir inner)) OUTPUT_DIR = false ∧
    (∀ d', entKindFile2 (setEnt es OUTPUT_DIR (Node.dir inner)) OUTPUT_DIR d'
      = entKindFile inner d') ∧
    (∀ d' f', entKindDir3 (setEnt es OUTPUT_DIR (Node.dir inner)) OUTPUT_DIR d' f'
      = entKindDir2 inner d' f') := by
  refine ⟨?_, ?_, ?_⟩
  · unfold entKindFile
    rw [lookup_setEnt_self]
  · intro d'
    unfold entKindFile2
    rw [lookup_setEnt_self]
  · intro d' f'
    unfold entKindDir3
    rw [lookup_setEnt_self]

theorem entK_top_app (es inner : List (String × Node))
    (hq : lookupEnt es OUTPUT_DIR = none) :
    entKindFile (es ++ [(OUTPUT_DIR, Node.dir inner)]) OUTPUT_DIR = false ∧
    (∀ d', entKindFile2 (es ++ [(OUTPUT_DIR, Node.dir inner)]) OUTPUT_DIR d'
      = entKindFile inner d') ∧
    (∀ d' f', entKindDir3 (es ++ [(OUTPUT_DIR, Node.dir inner)]) OUTPUT_DIR d' f'
      = entKindDir2 inner d' f') := by
  refine ⟨?_, ?_, ?_⟩
  · unfold entKindFile
    rw [lookup_append_one es OUTPUT_DIR _ hq]
  · intro d'
    unfold entKindFile2
    rw [lookup_append_one es OUTPUT_DIR _ hq]
  · intro d' f'
    unfold entKindDir3
    rw [lookup_append_one es OUTPUT_DIR _ hq]

theorem entK_fresh (d : String) :
    (∀ d', entKindFile [(d, Node.dir ([] : List (String × Node)))] d' = false) ∧
    (∀ d' f', entKindDir2 [(d, Node.dir ([] : List (String × Node)))] d' f' = false) := by
  constructor
  · intro d'
    unfold entKindFile
    by_cases h : d = d'
    · simp [lookupEnt, h]
    · simp [lookupEnt, h]
  · intro d' f'
    unfold entKindDir2
    by_cases h : d = d'
    · simp [lookupEnt, h]
    · simp [lookupEnt, h]

theorem entK_mid_app (es2 : List (String × Node)) (d : String)
    (hd : lookupEnt es2 d = none) :
    (∀ d', entKindFile (es2 ++ [(d, Node.dir [])]) d' = entKindFile es2 d') ∧
    (∀ d' f', entKindDir2 (es2 ++ [(d, Node.dir [])]) d' f' = entKindDir2 es2 d' f') := by
  constructor
  · intro d'
    unfold entKindFile
    by_cases h : d' = d
    · rw [h, lookup_append_one es2 d _ hd, hd]
    · rw [lookup_append_ne es2 d d' _ h]
  · intro d' f'
    unfold entKindDir2
    by_cases h : d' = d
    · rw [h, lookup_append_one es2 d _ hd, hd]
      simp [lookupEnt]
    · rw [lookup_append_ne es2 d d' _ h]

/-- The blocking observations are invariant under a 2-level `mkdir`. -/
theorem mk2_obs (es : List (String × Node)) (d : String) :
    obsEq (mkdirp (Node.dir es) [OUTPUT_DIR, d]).1 (Node.dir es) := by
  rcases mkdirp2_cases es d with ⟨hq, hm⟩ | ⟨fd, hq, hm⟩ | ⟨es2, hq, hrest⟩
  · rw [hm]
    have happ := entK_top_app es [(d, Node.dir [])] hq
    have hfr := entK_fresh d
    refine ⟨?_, ?_, ?_, ?_⟩
    · simp only [Node.entriesOf]
      exact nonQ_append_q es _
    · simp only [Node.entriesOf]
      rw [happ.1]
      unfold entKindFile
      rw [hq]
    · intro d'
      simp only [Node.entriesOf]
      rw [happ.2.1 d', hfr.1 d']
      unfold entKindFile2
      rw [hq]
    · intro d' f'
      simp only [Node.entriesOf]
      rw [happ.2.2 d' f', hfr.2 d' f']
      unfold entKindDir3
      rw [hq]
  · rw [hm]
    exact obsEq_refl _
  · rcases hrest with ⟨hd, hm⟩ | ⟨fd2, hd, hm⟩ | ⟨es3, hd, hm⟩
    · rw [hm]
      have hset := entK_top_set es (es2 ++ [(d, Node.dir [])])
      have hmid := entK_mid_app es2 d hd
      refine ⟨?_, ?_, ?_, ?_⟩
      · simp only [Node.entriesOf]
        exact nonQ_setEnt es _
      · simp only [Node.entriesOf]
        rw [hset.1]
        unfold entKindFile
        rw [hq]
      · intro d'
        simp only [Node.entriesOf]
        rw [hset.2.1 d', hmid.1 d']
        unfold entKindFile2
        rw [hq]
      · intro d' f'
        simp only [Node.entriesOf]
        rw [hset.2.2 d' f', hmid.2 d' f']
        unfold entKindDir3
        rw [hq]
    · rw [hm]
      exact obsEq_refl _
    · rw [hm]
      exact obsEq_refl _

/-- Observation invariance for the shape produced by a successful write:
the target entry goes from non-directory to file, every other entry keeps
its kind. -/
theorem wr3_obs_succ (es es2 es3 es3' : List (String × Node)) (d f : String)
    (pages : List Nat)
    (hq : lookupEnt es OUTPUT_DIR = some (Node.dir es2))
    (hd : lookupEnt es2 d = some (Node.dir es3))
    (hact : ∀ f', lookupEnt es3' f'
      = if f' = f then some (Node.file (FileData.pdf pages)) else lookupEnt es3 f')
    (hnd : (match lookupEnt es3 f with
      | some (Node.dir _) => true
      | _ => false) = false) :
    obsEq (Node.dir (setEnt es OUTPUT_DIR (Node.dir (setEnt es2 d (Node.dir es3')))))
      (Node.dir es) := by
  have hset := entK_top_set es (setEnt es2 d (Node.dir es3'))
  refine ⟨?_, ?_, ?_, ?_⟩
  · simp only [Node.entriesOf]
    exact nonQ_setEnt es _
  · simp only [Node.entriesOf]
    rw [hset.1]
    unfold entKindFile
    rw [hq]
  · intro d'
    simp only [Node.entriesOf]
    rw [hset.2.1 d']
    unfold entKindFile2
    rw [hq]
    dsimp only
    unfold entKindFile
    by_cases hdd : d' = d
    · rw [hdd, lookup_setEnt_self, hd]
    · rw [lookup_setEnt_ne es2 d d' _ hdd]
  · intro d' f'
    simp only [Node.entriesOf]
    rw [hset.2.2 d' f']
    unfold entKindDir3
    rw [hq]
    dsimp only
    unfold entKindDir2
    by_cases hdd : d' = d
    · rw [hdd, lookup_setEnt_self, hd]
      dsimp only
      rw [hact f']
      by_cases hff : f' = f
      · rw [if_pos hff, hff, hnd]
      · rw [if_neg hff]
    · rw [lookup_setEnt_ne es2 d d' _ hdd]

/-- The blocking observations are invariant under a 3-level write. -/
theorem wr3_obs (es : List (String × Node)) (d f : String) (pages : List Nat) :
    obsEq (writeF (Node.dir es) [OUTPUT_DIR, d, f] pages).1 (Node.dir es) := by
  rcases writeF3_cases es d f pages with ⟨hq, hm⟩ | ⟨fd, hq, hm⟩ | ⟨es2, hq, hrest⟩
  · rw [hm]
    exact obsEq_refl _
  · rw [hm]
    exact obsEq_refl _
  · rcases hrest with ⟨hd, hm⟩ | ⟨fd2, hd, hm⟩ | ⟨es3, hd, hrest2⟩
    · rw [hm]
      exact obsEq_refl _
    · rw [hm]
      exact obsEq_refl _
    · rcases hrest2 with ⟨hdir, hm⟩ | ⟨fd3, hf, hm⟩ | ⟨hf, hm⟩
      · rw [hm]
        exact obsEq_refl _
      · rw [hm]
        refine wr3_obs_succ es es2 es3 _ d f pages hq hd ?_ (by rw [hf])
        intro f'
        by_cases hff : f' = f
        · rw [if_pos hff, hff, lookup_setEnt_self]
        · rw [if_neg hff, lookup_setEnt_ne es3 f f' _ hff]
      · rw [hm]
        refine wr3_obs_succ es es2 es3 _ d f pages hq hd ?_ (by rw [hf])
        intro f'
        by_cases hff : f' = f
        · rw [if_pos hff, hff, lookup_append_one es3 f _ hf]
        · rw [if_neg hff, lookup_append_ne es3 f f' _ hff]

/-- The success of the 2-level `mkdir` is decided by the blocking
observations alone. -/
theorem mk2_ok (es : List (String × Node)) (d : String) :
    (mkdirp (Node.dir es) [OUTPUT_DIR, d]).2
      = (!entKindFile es OUTPUT_DIR && !entKindFile2 es OUTPUT_DIR d) := by
  rcases mkdirp2_cases es d with ⟨hq, hm⟩ | ⟨fd, hq, hm⟩ | ⟨es2, hq, hrest⟩
  · rw [hm]
    unfold entKindFile entKindFile2
    rw [hq]
    rfl
  · rw [hm]
    unfold entKindFile
    rw [hq]
    rfl
  · rcases hrest with ⟨hd, hm⟩ | ⟨fd2, hd, hm⟩ | ⟨es3, hd, hm⟩ <;>
    · rw [hm]
      unfold entKindFile entKindFile2
      rw [hq]
      dsimp only
      unfold entKindFile
      rw [hd]
      rfl

/-- Given that the `mkdir` succeeded, the success of the write is decided by
the remaining blocking observation of the original state. -/
theorem mkwr_ok (es : List (String × Node)) (d f : String) (pages : List Nat)
    (hmk : (mkdirp (Node.dir es) [OUTPUT_DIR, d]).2 = true) :
    (writeF (mkdirp (Node.dir es) [OUTPUT_DIR, d]).1 [OUTPUT_DIR, d, f] pages).2
      = !entKindDir3 es OUTPUT_DIR d f := by
  rcases mkdirp2_cases es d with ⟨hq, hm⟩ | ⟨fd, hq, hm⟩ | ⟨es2, hq, hrest⟩
  · rw [hm]
    dsimp only
    have hlq : lookupEnt (es ++ [(OUTPUT_DIR, Node.dir [(d, Node.dir [])])]) OUTPUT_DIR
        = some (Node.dir [(d, Node.dir [])]) := lookup_append_one es OUTPUT_DIR _ hq
    rw [writeF, hlq]
    dsimp only
    rw [writeF]
    rw [show lookupEnt [(d, Node.dir [])] d = some (Node.dir []) from by simp [lookupEnt]]
    dsimp only
    rw [writeF]
    rw [show lookupEnt ([] : List (String × Node)) f = none from rfl]
    unfold entKindDir3
    rw [hq]
    rfl
  · rw [hm] at hmk
    cases hmk
  · rcases hrest with ⟨hd, hm⟩ | ⟨fd2, hd, hm⟩ | ⟨es3, hd, hm⟩
    · rw [hm]
      dsimp only
      rw [writeF, lookup_setEnt_self]
      dsimp only
      rw [writeF, lookup_append_one es2 d _ hd]
      dsimp only
      rw [writeF]
      rw [show lookupEnt ([] : List (String × Node)) f = none from rfl]
      unfold entKindDir3
      rw [hq]
      dsimp only
      unfold entKindDir2
      rw [hd]
      rfl
    · rw [hm] at hmk
      cases hmk
    · rw [hm]
      dsimp only
      rw [writeF, hq]
      dsimp only
      rw [writeF, hd]
      dsimp only
      rw [writeF]
      unfold entKindDir3
      rw [hq]
      dsimp only
      unfold entKindDir2
      rw [hd]
      dsimp only
      cases hf : lookupEnt es3 f with
      | none => rfl
      | some child3 => cases child3 <;> rfl

theorem readPdf_obs (es et : List (String × Node)) (hq : nonQ es = nonQ et)
    (n : String) (rest : List String) (hn : n ≠ OUTPUT_DIR) :
    readPdf (Node.dir es) (n :: rest) = readPdf (Node.dir et) (n :: rest) := by
  unfold readPdf
  rw [resolve_nonQ_eq es et hq n hn rest]

theorem readAll_obs (es et : List (String × Node)) (hq : nonQ es = nonQ et) :
    ∀ ps : List (List String),
    (∀ pp ∈ ps, ∃ n rest, pp = n :: rest ∧ n ≠ OUTPUT_DIR) →
    readAll (Node.dir es) ps = readAll (Node.dir et) ps := by
  intro ps
  induction ps with
  | nil =>
    intro _
    rfl
  | cons p rest ih =>
    intro h
    rcases h p (List.mem_cons_self p rest) with ⟨n, r, rfl, hn⟩
    unfold readAll
    rw [readPdf_obs es et hq n r hn,
      ih fun pp hpp => h pp (List.mem_cons_of_mem _ hpp)]

theorem entriesAt_obs (es et : List (String × Node)) (h : nonQ es = nonQ et)
    (n : String) (hn : n ≠ OUTPUT_DIR) (p : List String) :
    entriesAt (Node.dir es) (n :: p) = entriesAt (Node.dir et) (n :: p) := by
  unfold entriesAt
  rw [resolve_nonQ_eq es et h n hn p]

/-- The blocking observations are invariant under one whole `merge_pdfs`
call aimed at a 3-component output path. -/
theorem merge_obs (es : List (String × Node)) (parts : List (List String))
    (D F : String) :
    obsEq (merge_pdfs (Node.dir es) parts [OUTPUT_DIR, D, F]).fs (Node.dir es) := by
  unfold merge_pdfs
  by_cases hpe : parts.isEmpty = true
  · rw [if_pos hpe]
    exact obsEq_refl _
  · rw [if_neg hpe]
    cases hra : readAll (Node.dir es) parts with
    | error e => exact obsEq_refl _
    | ok pages =>
      dsimp only
      rw [show ([OUTPUT_DIR, D, F] : List String).dropLast = [OUTPUT_DIR, D] from rfl]
      have hmobs := mk2_obs es D
      by_cases hm : (mkdirp (Node.dir es) [OUTPUT_DIR, D]).2 = true
      · rw [if_pos hm]
        rcases hmd : (mkdirp (Node.dir es) [OUTPUT_DIR, D]).1 with ⟨es'⟩ | ⟨dd⟩
        · rw [hmd] at hmobs
          have hwobs := wr3_obs es' D F pages
          by_cases hw : (writeF (Node.dir es') [OUTPUT_DIR, D, F] pages).2 = true
          · rw [if_pos hw]
            exact obsEq_trans hwobs hmobs
          · rw [if_neg hw]
            exact obsEq_trans hwobs hmobs
        · have hdd := isDir_mkdirp es [OUTPUT_DIR, D]
          rw [hmd] at hdd
          cases hdd
      · rw [if_neg hm]
        exact hmobs

/-- Two states with equal blocking observations drive one `merge_pdfs` call
to the same outcome: same return value, same prints, same written pages. -/
theorem merge_det (es et : List (String × Node)) (parts : List (List String))
    (D F : String)
    (hobs : obsEq (Node.dir es) (Node.dir et))
    (hps : ∀ pp ∈ parts, ∃ n rest, pp = n :: rest ∧ n ≠ OUTPUT_DIR) :
    (merge_pdfs (Node.dir es) parts [OUTPUT_DIR, D, F]).ok
        = (merge_pdfs (Node.dir et) parts [OUTPUT_DIR, D, F]).ok ∧
    (merge_pdfs (Node.dir es) parts [OUTPUT_DIR, D, F]).prints
        = (merge_pdfs (Node.dir et) parts [OUTPUT_DIR, D, F]).prints ∧
    (merge_pdfs (Node.dir es) parts [OUTPUT_DIR, D, F]).wrote
        = (merge_pdfs (Node.dir et) parts [OUTPUT_DIR, D, F]).wrote := by
  have h1 := hobs.1
  have h2 := hobs.2.1
  have h3 := hobs.2.2.1
  have h4 := hobs.2.2.2
  simp only [Node.entriesOf] at h1 h2 h3 h4
  have hread := readAll_obs es et h1 parts hps
  unfold merge_pdfs
  by_cases hpe : parts.isEmpty = true
  · rw [if_pos hpe, if_pos hpe]
    exact ⟨rfl, rfl, rfl⟩
  · rw [if_neg hpe, if_neg hpe, hread]
    cases hra : readAll (Node.dir et) parts with
    | error e => exact ⟨rfl, rfl, rfl⟩
    | ok pages =>
      dsimp only
      rw [show ([OUTPUT_DIR, D, F] : List String).dropLast = [OUTPUT_DIR, D] from rfl]
      have hmk : (mkdirp (Node.dir es) [OUTPUT_DIR, D]).2
          = (mkdirp (Node.dir et) [OUTPUT_DIR, D]).2 := by
        rw [mk2_ok, mk2_ok, h2, h3 D]
      by_cases hm : (mkdirp (Node.dir et) [OUTPUT_DIR, D]).2 = true
      · rw [if_pos (hmk.trans hm), if_pos hm]
        have hwr : (writeF (mkdirp (Node.dir es) [OUTPUT_DIR, D]).1
              [OUTPUT_DIR, D, F] pages).2
            = (writeF (mkdirp (Node.dir et) [OUTPUT_DIR, D]).1
              [OUTPUT_DIR, D, F] pages).2 := by
          rw [mkwr_ok es D F pages (hmk.trans hm), mkwr_ok et D F pages hm, h4 D F]
        by_cases hw : (writeF (mkdirp (Node.dir et) [OUTPUT_DIR, D]).1
            [OUTPUT_DIR, D, F] pages).2 = true
        · rw [if_pos (hwr.trans hw), if_pos hw]
          exact ⟨rfl, rfl, rfl⟩
        · rw [if_neg (by rw [hwr]; exact hw), if_neg hw]
          exact ⟨rfl, rfl, rfl⟩
      · rw [if_neg (by rw [hmk]; exact hm), if_neg hm]
        exact ⟨rfl, rfl, rfl⟩

theorem applyDelta_comb (st : RunState) (fs1 fs2 : Node) (d1 d2 : Delta) :
    applyDelta (applyDelta st fs1 d1) fs2 d2 = applyDelta st fs2 (d1.comb d2) := by
  unfold applyDelta Delta.comb
  simp [Nat.add_assoc, List.append_assoc]

theorem dir_entriesOf (t : Node) (hd : t.isDir = true) : Node.dir t.entriesOf = t := by
  cases t with
  | dir es => rfl
  | file d => cases hd

theorem obs_processQuiz_self (st : RunState) (season year semName : String) (qn : Nat)
    (qname : String) (hd : st.fs.isDir = true) :
    obsEq (processQuiz st season year semName qn qname).fs st.fs := by
  rcases hfs : st.fs with ⟨es⟩ | ⟨d⟩
  · simp only [processQuiz]
    rw [hfs]
    split
    · exact obsEq_refl _
    · split
      · exact merge_obs es _ (output_folder qn) (output_filename qn year season)
      · exact merge_obs es _ (output_folder qn) (output_filename qn year season)
  · rw [hfs] at hd
    cases hd

theorem obs_processQuizzes_self : ∀ (qs : List (Nat × String)) (st : RunState)
    (season year semName : String), st.fs.isDir = true →
    obsEq (processQuizzes st season year semName qs).fs st.fs := by
  intro qs
  induction qs with
  | nil =>
    intro st s y sn hd
    exact obsEq_refl _
  | cons q rest ih =>
    intro st s y sn hd
    have h1 := obs_processQuiz_self st s y sn q.1 q.2 hd
    have hd2 := (fs_processQuiz st s y sn q.1 q.2 hd).1
    exact obsEq_trans (ih _ s y sn hd2) h1

theorem obs_processAll_self : ∀ (ss : List (String × String × String)) (st : RunState),
    st.fs.isDir = true → obsEq (processAll st ss).fs st.fs := by
  intro ss
  induction ss with
  | nil =>
    intro st hd
    exact obsEq_refl _
  | cons s rest ih =>
    intro st hd
    have h1 : obsEq (processSemester st s).fs st.fs := obs_processQuizzes_self _ _ _ _ _ hd
    have hd2 := (fs_processSemester st s hd).1
    exact obsEq_trans (ih _ hd2) h1

theorem obs_main (w : List (String × Node)) : obsEq (main w).fs (Node.dir w) := by
  simp only [main]
  split
  · exact obsEq_refl _
  · exact obs_processAll_self (sortedSemesters w)
      ⟨Node.dir w, 0, 0, headerPrints ++ semListPrints (sortedSemesters w), [], [], []⟩ rfl

theorem scan_nonQ (es et : List (String × Node)) (h : nonQ es = nonQ et) :
    scanSemesters es = scanSemesters et := by
  have key : ∀ gs : List (String × Node), scanSemesters gs = scanSemesters (nonQ gs) := by
    intro gs
    induction gs with
    | nil => rfl
    | cons e rest ih =>
      by_cases hq : e.1 = OUTPUT_DIR
      · have hpnone : parse_semester_folder OUTPUT_DIR = none := by decide
        unfold scanSemesters nonQ
        unfold scanSemesters nonQ at ih
        simp [List.filterMap_cons, List.filter_cons, hq, hpnone, ih]
      · unfold scanSemesters nonQ
        unfold scanSemesters nonQ at ih
        simp [List.filterMap_cons, List.filter_cons, hq, ih]
  rw [key es, key et, h]

theorem merge_obs_path (es : List (String × Node)) (parts : List (List String))
    (qn : Nat) (year season : String) :
    obsEq (merge_pdfs (Node.dir es) parts (output_path qn year season)).fs (Node.dir es) :=
  merge_obs es parts (output_folder qn) (output_filename qn year season)

theorem merge_det_path (es et : List (String × Node)) (parts : List (List String))
    (qn : Nat) (year season : String)
    (hobs : obsEq (Node.dir es) (Node.dir et))
    (hps : ∀ pp ∈ parts, ∃ n rest, pp = n :: rest ∧ n ≠ OUTPUT_DIR) :
    (merge_pdfs (Node.dir es) parts (output_path qn year season)).ok
        = (merge_pdfs (Node.dir et) parts (output_path qn year season)).ok ∧
    (merge_pdfs (Node.dir es) parts (output_path qn year season)).prints
        = (merge_pdfs (Node.dir et) parts (output_path qn year season)).prints ∧
    (merge_pdfs (Node.dir es) parts (output_path qn year season)).wrote
        = (merge_pdfs (Node.dir et) parts (output_path qn year season)).wrote :=
  merge_det es et parts (output_folder qn) (output_filename qn year season) hobs hps

theorem processQuiz_eq_skip (st : RunState) (season year semName : String) (qn : Nat)
    (qname : String) (fq : List String × List String)
    (hfq : find_quiz_parts (semName ++ "/" ++ qname)
      (entriesAt st.fs [semName, qname]) qn = fq)
    (hlen : fq.1.length ≠ 3) :
    processQuiz st season year semName qn qname
      = applyDelta st st.fs
          ⟨0, 1,
           fq.2 ++ ["  Quiz " ++ toString qn ++ ": Found " ++ toString fq.1.length
             ++ "/3 parts - skipping"],
           [(season, year, qn, qname)], [], []⟩ := by
  simp only [processQuiz]
  rw [hfq, if_pos hlen]
  simp [applyDelta, List.append_assoc]

theorem processQuiz_eq_merge (st : RunState) (season year semName : String) (qn : Nat)
    (qname : String) (fq : List String × List String) (m : MergeOut)
    (hfq : find_quiz_parts (semName ++ "/" ++ qname)
      (entriesAt st.fs [semName, qname]) qn = fq)
    (hm : merge_pdfs st.fs (fq.1.map fun f => [semName, qname, f])
      (output_path qn year season) = m)
    (hlen : fq.1.length = 3) :
    processQuiz st season year semName qn qname
      = applyDelta st m.fs
          (if m.ok then
            ⟨1, 0,
             fq.2 ++ m.prints ++ ["  Quiz " ++ toString qn ++ ": Merged -> "
               ++ output_filename qn year season],
             [(season, year, qn, qname)],
             [(qn, season, year, fq.1.map fun f => [semName, qname, f],
               output_path qn year season)],
             [(output_path qn year season, m.wrote.getD [])]⟩
          else
            ⟨0, 1,
             fq.2 ++ m.prints ++ ["  Quiz " ++ toString qn ++ ": Failed to merge"],
             [(season, year, qn, qname)],
             [(qn, season, year, fq.1.map fun f => [semName, qname, f],
               output_path qn year season)], []⟩) := by
  simp only [processQuiz]
  rw [hfq, if_neg (fun hne => hne hlen), hm]
  by_cases hok : m.ok = true
  · rw [if_pos hok, if_pos hok]
    simp [applyDelta, List.append_assoc]
  · rw [if_neg hok, if_neg hok]
    simp [applyDelta, List.append_assoc]

theorem processQuiz_pair (st1 st2 : RunState) (season year semName : String)
    (qn : Nat) (qname : String)
    (hobs : obsEq st1.fs st2.fs)
    (hd1 : st1.fs.isDir = true) (hd2 : st2.fs.isDir = true)
    (hs : semName ≠ OUTPUT_DIR) :
    ∃ (d : Delta) (f1 f2 : Node),
      processQuiz st1 season year semName qn qname = applyDelta st1 f1 d ∧
      processQuiz st2 season year semName qn qname = applyDelta st2 f2 d ∧
      obsEq f1 f2 ∧ f1.isDir = true ∧ f2.isDir = true := by
  rcases hfs1 : st1.fs with ⟨e1⟩ | ⟨d1⟩
  swap
  · rw [hfs1] at hd1
    cases hd1
  rcases hfs2 : st2.fs with ⟨e2⟩ | ⟨d2⟩
  swap
  · rw [hfs2] at hd2
    cases hd2
  rw [hfs1, hfs2] at hobs
  have h1 := hobs.1
  simp only [Node.entriesOf] at h1
  have hent : find_quiz_parts (semName ++ "/" ++ qname)
        (entriesAt st1.fs [semName, qname]) qn
      = find_quiz_parts (semName ++ "/" ++ qname)
        (entriesAt st2.fs [semName, qname]) qn := by
    rw [hfs1, hfs2, entriesAt_obs e1 e2 h1 semName hs [qname]]
  by_cases hlen : (find_quiz_parts (semName ++ "/" ++ qname)
      (entriesAt st2.fs [semName, qname]) qn).1.length = 3
  · have hps : ∀ pp ∈ ((find_quiz_parts (semName ++ "/" ++ qname)
        (entriesAt st2.fs [semName, qname]) qn).1.map fun f => [semName, qname, f]),
        ∃ n rest, pp = n :: rest ∧ n ≠ OUTPUT_DIR := by
      intro pp hpp
      rcases List.mem_map.mp hpp with ⟨f, _, hppf⟩
      exact ⟨semName, [qname, f], hppf.symm, hs⟩
    have hdet := merge_det_path e1 e2 _ qn year season hobs hps
    have hA := processQuiz_eq_merge st1 season year semName qn qname _
      (merge_pdfs (Node.dir e1)
        ((find_quiz_parts (semName ++ "/" ++ qname)
          (entriesAt st2.fs [semName, qname]) qn).1.map fun f => [semName, qname, f])
        (output_path qn year season))
      hent (by rw [hfs1]) hlen
    have hB := processQuiz_eq_merge st2 season year semName qn qname _
      (merge_pdfs (Node.dir e2)
        ((find_quiz_parts (semName ++ "/" ++ qname)
          (entriesAt st2.fs [semName, qname]) qn).1.map fun f => [semName, qname, f])
        (output_path qn year season))
      rfl (by rw [hfs2]) hlen
    rw [hdet.1, hdet.2.1, hdet.2.2] at hA
    refine ⟨_, _, _, hA, hB, ?_, ?_, ?_⟩
    · exact obsEq_trans (merge_obs_path e1 _ qn year season)
        (obsEq_trans hobs (obsEq_symm (merge_obs_path e2 _ qn year season)))
    · exact isDir_merge e1 _ _
    · exact isDir_merge e2 _ _
  · have hA := processQuiz_eq_skip st1 season year semName qn qname _ hent hlen
    have hB := processQuiz_eq_skip st2 season year semName qn qname _ rfl hlen
    refine ⟨_, _, _, hA, hB, ?_, hd1, hd2⟩
    rw [hfs1, hfs2]
    exact hobs

theorem applyDelta_zero (st : RunState) : applyDelta st st.fs ⟨0, 0, [], [], [], []⟩ = st := by
  unfold applyDelta
  simp

theorem processQuizzes_pair : ∀ (qs : List (Nat × String)) (st1 st2 : RunState)
    (season year semName : String),
    obsEq st1.fs st2.fs → st1.fs.isDir = true → st2.fs.isDir = true →
    semName ≠ OUTPUT_DIR →
    ∃ (d : Delta) (f1 f2 : Node),
      processQuizzes st1 season year semName qs = applyDelta st1 f1 d ∧
      processQuizzes st2 season year semName qs = applyDelta st2 f2 d ∧
      obsEq f1 f2 ∧ f1.isDir = true ∧ f2.isDir = true := by
  intro qs
  induction qs with
  | nil =>
    intro st1 st2 s y sn hobs hd1 hd2 hs
    exact ⟨⟨0, 0, [], [], [], []⟩, st1.fs, st2.fs, (applyDelta_zero st1).symm,
      (applyDelta_zero st2).symm, hobs, hd1, hd2⟩
  | cons q rest ih =>
    intro st1 st2 s y sn hobs hd1 hd2 hs
    rcases processQuiz_pair st1 st2 s y sn q.1 q.2 hobs hd1 hd2 hs with
      ⟨d0, f1, f2, hA, hB, hobs0, hdf1, hdf2⟩
    have h1 : (processQuiz st1 s y sn q.1 q.2).fs = f1 := by
      rw [hA]
      rfl
    have h2 : (processQuiz st2 s y sn q.1 q.2).fs = f2 := by
      rw [hB]
      rfl
    rcases ih (processQuiz st1 s y sn q.1 q.2) (processQuiz st2 s y sn q.1 q.2) s y sn
      (by rw [h1, h2]; exact hobs0) (by rw [h1]; exact hdf1) (by rw [h2]; exact hdf2) hs with
      ⟨d', g1, g2, hA', hB', hobs', hg1, hg2⟩
    refine ⟨d0.comb d', g1, g2, ?_, ?_, hobs', hg1, hg2⟩
    · rw [processQuizzes, hA', hA, applyDelta_comb]
    · rw [processQuizzes, hB', hB, applyDelta_comb]

theorem processSemester_pair (st1 st2 : RunState) (sem : String × String × String)
    (hobs : obsEq st1.fs st2.fs)
    (hd1 : st1.fs.isDir = true) (hd2 : st2.fs.isDir = true)
    (hs : sem.2.2 ≠ OUTPUT_DIR) :
    ∃ (d : Delta) (f1 f2 : Node),
      processSemester st1 sem = applyDelta st1 f1 d ∧
      processSemester st2 sem = applyDelta st2 f2 d ∧
      obsEq f1 f2 ∧ f1.isDir = true ∧ f2.isDir = true := by
  rcases hfs1 : st1.fs with ⟨e1⟩ | ⟨dd1⟩
  swap
  · rw [hfs1] at hd1
    cases hd1
  rcases hfs2 : st2.fs with ⟨e2⟩ | ⟨dd2⟩
  swap
  · rw [hfs2] at hd2
    cases hd2
  have h1 : nonQ e1 = nonQ e2 := by
    have := hobs.1
    rw [hfs1, hfs2] at this
    simpa [Node.entriesOf] using this
  have hqs : find_quiz_folders (entriesAt st1.fs [sem.2.2])
      = find_quiz_folders (entriesAt st2.fs [sem.2.2]) := by
    rw [hfs1, hfs2, entriesAt_obs e1 e2 h1 sem.2.2 hs []]
  unfold processSemester
  dsimp only
  rw [hqs]
  rcases processQuizzes_pair (find_quiz_folders (entriesAt st2.fs [sem.2.2]))
      { st1 with prints := st1.prints ++ ["\nProcessing " ++ sem.2.2 ++ "..."] }
      { st2 with prints := st2.prints ++ ["\nProcessing " ++ sem.2.2 ++ "..."] }
      sem.1 sem.2.1 sem.2.2 hobs hd1 hd2 hs with
    ⟨d, f1, f2, hA, hB, hobs', hg1, hg2⟩
  refine ⟨Delta.comb ⟨0, 0, ["\nProcessing " ++ sem.2.2 ++ "..."], [], [], []⟩ d,
    f1, f2, ?_, ?_, hobs', hg1, hg2⟩
  · rw [hA, show ({ st1 with prints := st1.prints ++ ["\nProcessing " ++ sem.2.2 ++ "..."] }
        : RunState) = applyDelta st1 st1.fs
        ⟨0, 0, ["\nProcessing " ++ sem.2.2 ++ "..."], [], [], []⟩ from by simp [applyDelta],
      applyDelta_comb]
  · rw [hB, show ({ st2 with prints := st2.prints ++ ["\nProcessing " ++ sem.2.2 ++ "..."] }
        : RunState) = applyDelta st2 st2.fs
        ⟨0, 0, ["\nProcessing " ++ sem.2.2 ++ "..."], [], [], []⟩ from by simp [applyDelta],
      applyDelta_comb]

theorem processAll_pair : ∀ (ss : List (String × String × String)) (st1 st2 : RunState),
    obsEq st1.fs st2.fs → st1.fs.isDir = true → st2.fs.isDir = true →
    (∀ sem ∈ ss, sem.2.2 ≠ OUTPUT_DIR) →
    ∃ (d : Delta) (f1 f2 : Node),
      processAll st1 ss = applyDelta st1 f1 d ∧
      processAll st2 ss = applyDelta st2 f2 d ∧
      obsEq f1 f2 ∧ f1.isDir = true ∧ f2.isDir = true := by
  intro ss
  induction ss with
  | nil =>
    intro st1 st2 hobs hd1 hd2 hss
    exact ⟨⟨0, 0, [], [], [], []⟩, st1.fs, st2.fs, (applyDelta_zero st1).symm,
      (applyDelta_zero st2).symm, hobs, hd1, hd2⟩
  | cons s rest ih =>
    intro st1 st2 hobs hd1 hd2 hss
    rcases processSemester_pair st1 st2 s hobs hd1 hd2
      (hss s (List.mem_cons_self s rest)) with ⟨d0, f1, f2, hA, hB, hobs0, hdf1, hdf2⟩
    have h1 : (processSemester st1 s).fs = f1 := by
      rw [hA]
      rfl
    have h2 : (processSemester st2 s).fs = f2 := by
      rw [hB]
      rfl
    rcases ih (processSemester st1 s) (processSemester st2 s)
      (by rw [h1, h2]; exact hobs0) (by rw [h1]; exact hdf1) (by rw [h2]; exact hdf2)
      (fun sem hm => hss sem (List.mem_cons_of_mem s hm)) with
      ⟨d', g1, g2, hA', hB', hobs', hg1, hg2⟩
    refine ⟨d0.comb d', g1, g2, ?_, ?_, hobs', hg1, hg2⟩
    · rw [processAll, hA', hA, applyDelta_comb]
    · rw [processAll, hB', hB, applyDelta_comb]

/-- C9: a second run of `main` on the workspace left by a first run is
idempotent for the observable behavior: the output directory `Quizzes` is
never itself recognized as a semester folder, the second run recognizes
exactly the same semester folders, performs exactly the same merge
invocations, and overwrites exactly the same output paths with the same
merged pages. -/
theorem run_idempotent_spec (w : List (String × Node)) :
    parse_semester_folder OUTPUT_DIR = none ∧
    scanSemesters (main w).fs.entriesOf = scanSemesters w ∧
    (main (main w).fs.entriesOf).visits = (main w).visits ∧
    (main (main w).fs.entriesOf).calls = (main w).calls ∧
    (main (main w).fs.entriesOf).writes = (main w).writes := by
  have hobs := obs_main w
  have hfsd := (fs_main w).1
  have hscan : scanSemesters (main w).fs.entriesOf = scanSemesters w :=
    scan_nonQ _ _ (fs_main w).2
  have hobs2 : obsEq (Node.dir (main w).fs.entriesOf) (Node.dir w) := by
    rw [dir_entriesOf _ hfsd]
    exact hobs
  have hsems : sortedSemesters (main w).fs.entriesOf = sortedSemesters w := by
    unfold sortedSemesters
    rw [hscan]
  have hkey : (main (main w).fs.entriesOf).visits = (main w).visits ∧
      (main (main w).fs.entriesOf).calls = (main w).calls ∧
      (main (main w).fs.entriesOf).writes = (main w).writes := by
    generalize hgen : (main w).fs.entriesOf = w2 at hobs2 hsems ⊢
    simp only [main]
    rw [hsems]
    by_cases hemp : (sortedSemesters w).isEmpty = true
    · rw [if_pos hemp, if_pos hemp]
      exact ⟨rfl, rfl, rfl⟩
    · rw [if_neg hemp, if_neg hemp]
      rcases processAll_pair (sortedSemesters w)
          ⟨Node.dir w2, 0, 0, headerPrints ++ semListPrints (sortedSemesters w), [], [], []⟩
          ⟨Node.dir w, 0, 0, headerPrints ++ semListPrints (sortedSemesters w), [], [], []⟩
          hobs2 rfl rfl (fun sem hm => mem_sortedSemesters_ne w sem hm) with
        ⟨d, f1, f2, hA, hB, h3, h4, h5⟩
      rw [hA, hB]
      exact ⟨rfl, rfl, rfl⟩
  exact ⟨by decide, hscan, hkey.1, hkey.2.1, hkey.2.2⟩

end SortQuizzes
